import Mathlib

/-!
Verification of the tabular-data profiling and payload-extraction core of the
Ds-bot repository (src/App.tsx, src/types.ts, and the earlier variant kept in
src/unnamed/part_007).

Modelling conventions:
* Strings are modelled as `List Char` (`Str`); `strL` converts a Lean string
  literal.  JavaScript `String.prototype.trim` is modelled with
  `Char.isWhitespace` (space, tab, CR, LF).
* JavaScript numbers are modelled as exact rationals (`ℚ`).  The ECMAScript
  `Number(string)` builtin (external to the repository) is modelled by
  `jsNumber` on the signed-decimal-literal part of its grammar; non-finite and
  radix-prefixed literals are outside the model.  `toFixed(2)` rounding is
  modelled exactly (round half away from zero at the second decimal).
* `Math.sqrt(v)` followed by `toFixed(2)` is modelled by `round2sqrt`, a
  computable integer-square-root computation of ⌊100·√v + 1/2⌋ / 100; the
  bridging lemma `round2sqrt_eq_floor_sqrt` identifies it with rounding the
  real square root.
-/

/-- JavaScript strings, modelled as lists of characters. -/
abbrev Str : Type := List Char

/-- Converts a Lean string literal to the `Str` model. -/
def strL (s : String) : Str := s.data

/-- The backtick character (code 96), written via `Char.ofNat`. -/
def backtick : Char := Char.ofNat 96

/-- Whitespace test used by the model of `String.prototype.trim`. -/
def wsp (c : Char) : Bool := c.isWhitespace

/-- Drops leading whitespace (the left half of `trim`). -/
def trimStart (s : Str) : Str := s.dropWhile wsp

/-- Drops trailing whitespace (the right half of `trim`). -/
def trimEnd (s : Str) : Str := (s.reverse.dropWhile wsp).reverse

/-- Model of JavaScript `s.trim()`: drop leading and trailing whitespace. -/
def trimLC (s : Str) : Str := trimEnd (trimStart s)

/-- Model of JavaScript `s.split(sep)` for a single-character separator:
always returns at least one (possibly empty) field. -/
def splitOnChar (sep : Char) : Str → List Str
  | [] => [[]]
  | c :: rest =>
    match splitOnChar sep rest with
    | [] => [[]]
    | h :: t => if c = sep then [] :: h :: t else (c :: h) :: t

/-- Numeric value of a decimal digit character. -/
def digitVal (c : Char) : ℕ := c.toNat - 48

/-- Value of a string of decimal digits (most significant first). -/
def natOfDigits (ds : Str) : ℕ := ds.foldl (fun a c => 10 * a + digitVal c) 0

/-- Parses the exponent tail of a decimal literal (after `e`/`E`): an optional
sign followed by a nonempty digit string consuming the whole input. -/
def parseExpPart : Str → Option ℤ
  | '+' :: r => if !r.isEmpty && r.all Char.isDigit then some ((natOfDigits r : ℤ)) else none
  | '-' :: r => if !r.isEmpty && r.all Char.isDigit then some (-(natOfDigits r : ℤ)) else none
  | r => if !r.isEmpty && r.all Char.isDigit then some ((natOfDigits r : ℤ)) else none

/-- Value of an unsigned decimal literal broken into integer digits, fraction
digits and a (possibly empty) exponent tail. -/
def decimalValue (ip fp rest : Str) : Option ℚ :=
  let base : ℚ := (natOfDigits ip : ℚ) + (natOfDigits fp : ℚ) / (10 : ℚ) ^ fp.length
  match rest with
  | [] => some base
  | 'e' :: r => (parseExpPart r).map (fun e => base * (10 : ℚ) ^ e)
  | 'E' :: r => (parseExpPart r).map (fun e => base * (10 : ℚ) ^ e)
  | _ => none

/-- Parses an unsigned decimal literal (digits, optional `.` fraction,
optional exponent); at least one digit must be present. -/
def parseDecimal (s : Str) : Option ℚ :=
  let ip := s.takeWhile Char.isDigit
  let r1 := s.dropWhile Char.isDigit
  match r1 with
  | '.' :: r2 =>
    let fp := r2.takeWhile Char.isDigit
    let r3 := r2.dropWhile Char.isDigit
    if ip.isEmpty && fp.isEmpty then none else decimalValue ip fp r3
  | r2 => if ip.isEmpty then none else decimalValue ip [] r2

/-- Model of the ECMAScript `Number(string)` conversion (a JS builtin,
external to this repository), on the signed-decimal part of its grammar:
whitespace-trimmed empty input converts to 0; otherwise an optionally signed
decimal literal with optional fraction and exponent.  `none` models NaN.
Radix-prefixed (`0x…`) and non-finite (`Infinity`) literals are outside the
model. -/
def jsNumber (s : Str) : Option ℚ :=
  let t := trimLC s
  if t.isEmpty then some 0
  else
    match t with
    | '+' :: r => parseDecimal r
    | '-' :: r => (parseDecimal r).map Neg.neg
    | r => parseDecimal r

/-- `isNumeric` from src/App.tsx line 17:
`v.trim() !== '' && !isNaN(Number(v))`. -/
def isNumeric (v : Str) : Bool := !(trimLC v).isEmpty && (jsNumber v).isSome

/-- The numeric value `Number(v)` used when mapping a numeric column's cells
to numbers (always guarded by `isNumeric`, so the default is never returned
on that path). -/
def toNumber (v : Str) : ℚ := (jsNumber v).getD 0

/-- `NumericStats` from src/types.ts. -/
structure NumericStats where
  mean : ℚ
  median : ℚ
  stdDev : ℚ
  min : ℚ
  max : ℚ
deriving DecidableEq

/-- Model of `parseFloat(x.toFixed(2))`: rounds to 2 decimal places, half
away from zero (the ECMAScript `toFixed` tie rule on the model's exact
rationals). -/
def jsToFixed2 (q : ℚ) : ℚ :=
  if q < 0 then -(((⌊-q * 100 + 1 / 2⌋ : ℤ) : ℚ) / 100)
  else ((⌊q * 100 + 1 / 2⌋ : ℤ) : ℚ) / 100

/-- ⌊√q⌋ for a nonnegative rational, computed with the integer square root:
for q = n/d (in lowest terms), ⌊√q⌋ = ⌊√(n·d)⌋ / d. -/
def ratSqrtFloor (q : ℚ) : ℤ := (Nat.sqrt (q.num.toNat * q.den) : ℤ) / (q.den : ℤ)

/-- Model of `parseFloat(Math.sqrt(v).toFixed(2))` for v ≥ 0: the exact value
⌊100·√v + 1/2⌋ / 100, computed on rationals via `ratSqrtFloor` (see the
bridging lemma `round2sqrt_eq_floor_sqrt`). -/
def round2sqrt (q : ℚ) : ℚ := (((ratSqrtFloor (40000 * q) + 1) / 2 : ℤ) : ℚ) / 100

/-- Model of `[...data].sort((a, b) => a - b)`: ascending sort. -/
def sortAsc (data : List ℚ) : List ℚ := data.mergeSort (fun a b => a ≤ b)

/-- `getNumericStats` from src/App.tsx lines 24-39.  The `reduce` for the sum
carries initial accumulator 0; the `reduce` in the stdDev line has no initial
accumulator, which on the nonempty lists reaching it equals the fold from 0
used here. -/
def getNumericStats (data : List ℚ) : NumericStats :=
  if data.length = 0 then { mean := 0, median := 0, stdDev := 0, min := 0, max := 0 }
  else
    let sorted := sortAsc data
    let sum := data.foldl (fun acc val => acc + val) 0
    let mean := sum / (data.length : ℚ)
    let mid := sorted.length / 2
    let median :=
      if sorted.length % 2 = 0 then (sorted.getD (mid - 1) 0 + sorted.getD mid 0) / 2
      else sorted.getD mid 0
    let variance := ((data.map (fun x => (x - mean) ^ 2)).foldl (fun a b => a + b) 0) / (data.length : ℚ)
    { mean := jsToFixed2 mean
      median := jsToFixed2 median
      stdDev := round2sqrt variance
      min := sorted.getD 0 0
      max := sorted.getD (sorted.length - 1) 0 }

/-- `CategoricalStats` from src/types.ts; the JS object `valueCounts` is
modelled as an association list in insertion order. -/
structure CategoricalStats where
  valueCounts : List (Str × ℕ)
  uniqueValues : ℕ
deriving DecidableEq

/-- One step of the `reduce` in `getCategoricalStats`: bump the count of `v`,
appending a new key in insertion order when absent. -/
def bumpCount : List (Str × ℕ) → Str → List (Str × ℕ)
  | [], v => [(v, 1)]
  | (k, n) :: rest, v => if k = v then (k, n + 1) :: rest else (k, n) :: bumpCount rest v

/-- `getCategoricalStats` from src/App.tsx lines 46-52. -/
def getCategoricalStats (data : List Str) : CategoricalStats :=
  let valueCounts := data.foldl bumpCount []
  { valueCounts := valueCounts, uniqueValues := valueCounts.length }

/-- The `stats` union `NumericStats | CategoricalStats` of src/types.ts. -/
inductive StatsPayload
  | numeric (s : NumericStats)
  | categorical (s : CategoricalStats)
deriving DecidableEq

/-- `ColumnInfo` from src/types.ts. -/
structure ColumnInfo where
  name : Str
  type : String
  hasMissingValues : Bool
  missingCount : ℕ
  totalRows : ℕ
  stats : Option StatsPayload
deriving DecidableEq

/-- Per-cell normalisation in the parser: `cell.trim().replace(/"/g, '')`
(App.tsx lines 66-67) — note the regex is global, so every double quote in
the cell is removed. -/
def parseCell (v : Str) : Str := (trimLC v).filter (fun c => !(c == '"'))

/-- Splitting one line on commas and normalising each cell. -/
def parseLine (line : Str) : List Str := (splitOnChar ',' line).map parseCell

/-- `csvText.trim().split('\n')` (App.tsx line 63). -/
def linesOf (csvText : Str) : List Str := splitOnChar '\n' (trimLC csvText)

/-- The parsed header row (App.tsx line 66). -/
def headersOf (csvText : Str) : List Str := parseLine ((linesOf csvText).headD [])

/-- The parsed data rows (App.tsx line 67). -/
def rowsOf (csvText : Str) : List (List Str) := ((linesOf csvText).drop 1).map parseLine

/-- `rows.map(row => row[colIndex]).filter(v => v !== undefined)`
(App.tsx line 70): cells of one column, out-of-range (short-row) accesses
dropped. -/
def columnValuesOf (rows : List (List Str)) (colIndex : ℕ) : List Str :=
  rows.filterMap (fun row => row.get? colIndex)

/-- `columnValues.filter(v => v !== null && v.trim() !== '')`
(App.tsx line 71). -/
def nonMissingOf (rows : List (List Str)) (colIndex : ℕ) : List Str :=
  (columnValuesOf rows colIndex).filter (fun v => !(trimLC v).isEmpty)

/-- The per-column body of `analyzeColumns` (App.tsx lines 69-99). -/
def mkColumnInfo (rows : List (List Str)) (colIndex : ℕ) (header : Str) : ColumnInfo :=
  let columnValues := columnValuesOf rows colIndex
  let nonMissingValues := nonMissingOf rows colIndex
  let missingCount := columnValues.length - nonMissingValues.length
  let totalRows := rows.length
  if nonMissingValues.all isNumeric && decide (0 < nonMissingValues.length) then
    { name := header, type := "Numeric",
      hasMissingValues := decide (0 < missingCount),
      missingCount := missingCount, totalRows := totalRows,
      stats := some (.numeric (getNumericStats (nonMissingValues.map toNumber))) }
  else
    { name := header,
      type :=
        if decide (nonMissingValues.dedup.length ≤ 2) && decide (0 < nonMissingValues.length)
        then "Boolean" else "String",
      hasMissingValues := decide (0 < missingCount),
      missingCount := missingCount, totalRows := totalRows,
      stats := some (.categorical (getCategoricalStats nonMissingValues)) }

/-- The `headers.map((header, colIndex) => …)` profiling pass over an already
parsed table (App.tsx lines 69-99). -/
def analyzeParsed (headers : List Str) (rows : List (List Str)) : List ColumnInfo :=
  headers.enum.map (fun p => mkColumnInfo rows p.1 p.2)

/-- `analyzeColumns` from src/App.tsx lines 62-100. -/
def analyzeColumns (csvText : Str) : List ColumnInfo :=
  if (linesOf csvText).length < 2 then []
  else analyzeParsed (headersOf csvText) (rowsOf csvText)

/-- `ValidationIssue` from src/types.ts. -/
structure ValidationIssue where
  type : String
  column : Option Str
  row : ℕ
  value : Option Str
  message : String
deriving DecidableEq

/-- Recovers a Lean `String` from the `Str` model (for issue messages). -/
def strOf (s : Str) : String := String.mk s

/-- Names of the columns whose resolved type is `Numeric`
(App.tsx line 134). -/
def numericColumnNames (columnInfo : List ColumnInfo) : List Str :=
  (columnInfo.filter (fun c => c.type == "Numeric")).map (fun c => c.name)

/-- The issue pushed for an inconsistent row length (App.tsx lines 139-143). -/
def inconsistentRowLengthIssue (headerCount rowLen rowNum : ℕ) : ValidationIssue :=
  { type := "INCONSISTENT_ROW_LENGTH", column := none, row := rowNum, value := none,
    message := "Expected " ++ toString headerCount ++ " columns, but found "
      ++ toString rowLen ++ "." }

/-- The issue pushed for a non-numeric cell in a numeric column
(App.tsx lines 151-157). -/
def mixedTypeIssue (header cell : Str) (rowNum : ℕ) : ValidationIssue :=
  { type := "MIXED_DATA_TYPE", column := some header, row := rowNum, value := some cell,
    message := "Found non-numeric value \"" ++ strOf cell
      ++ "\" in the supposedly numeric column \"" ++ strOf header ++ "\"." }

/-- The issues contributed by one data row (App.tsx lines 136-160): an
inconsistent-length row yields exactly the one row-length issue and an early
`return` (continue) skips the mixed-type check for that row. -/
def rowIssues (headers : List Str) (numericCols : List Str) (rowIndex : ℕ)
    (row : List Str) : List ValidationIssue :=
  if row.length ≠ headers.length then
    [inconsistentRowLengthIssue headers.length row.length (rowIndex + 2)]
  else
    row.enum.filterMap (fun p =>
      let header := headers.getD p.1 []
      if numericCols.contains header && !(trimLC p.2).isEmpty && !(isNumeric p.2) then
        some (mixedTypeIssue header p.2 (rowIndex + 2))
      else none)

/-- The `rows.forEach((row, rowIndex) => …)` traversal of the validator,
carried out with an explicit row index. -/
def validateFrom (headers : List Str) (numericCols : List Str) :
    ℕ → List (List Str) → List ValidationIssue
  | _, [] => []
  | i, row :: rest =>
    rowIssues headers numericCols i row ++ validateFrom headers numericCols (i + 1) rest

/-- `validateCsvData` from src/App.tsx lines 131-163. -/
def validateCsvData (headers : List Str) (rows : List (List Str))
    (columnInfo : List ColumnInfo) : List ValidationIssue :=
  validateFrom headers (numericColumnNames columnInfo) 0 rows

/-- The per-cell classification values of `inferDataType`
(src/unnamed/part_007 lines 16-21). -/
inductive CellType
  | numeric
  | boolean
  | string
deriving DecidableEq, Fintype

/-- The string label the earlier variant stores for a cell type. -/
def CellType.label : CellType → String
  | .numeric => "Numeric"
  | .boolean => "Boolean"
  | .string => "String"

/-- Lower-casing used by `value.toLowerCase()` (ASCII model). -/
def lowerStr (s : Str) : Str := s.map Char.toLower

/-- `inferDataType` from src/unnamed/part_007 lines 16-21. -/
def inferDataType (value : Str) : CellType :=
  if (trimLC value).isEmpty then .string
  else if [strL "true", strL "false", strL "yes", strL "no", strL "0", strL "1"].contains
      (lowerStr value) then .boolean
  else if (jsNumber value).isSome && !(trimLC value).isEmpty then .numeric
  else .string

/-- The column-level reduction of src/unnamed/part_007 lines 61-78 over the
list `Array.from(set-of-cell-classifications)` of distinct cell types. -/
def resolveColumnType (types : List CellType) : String :=
  if types.length = 0 then "Empty"
  else if types.length = 1 then (types.headD .string).label
  else if types.contains .string then "String (Mixed)"
  else if types.contains .numeric && types.contains .boolean then "Numeric"
  else "Mixed"

/-- Bool test that `pat` is a prefix of `s` (the anchored step of the regex
scan). -/
def leadsWith : Str → Str → Bool
  | [], _ => true
  | _ :: _, [] => false
  | p :: ps, c :: cs => p == c && leadsWith ps cs

/-- Index of the first occurrence of `pat` as a contiguous substring of `s`
(the scan a JS regex engine performs for a literal pattern). -/
def findSub (pat : Str) : Str → Option ℕ
  | [] => if pat.isEmpty then some 0 else none
  | c :: rest =>
    if leadsWith pat (c :: rest) then some 0
    else (findSub pat rest).map (· + 1)

/-- Model of matching `/openPat([\s\S]*?)closePat/` against `s`: the leftmost
start position at which `openPat` matches and some later `closePat` occurs;
the lazy group is the text up to the first such `closePat`.  Returns the
match position, the group, and the total match length. -/
def firstViable (openPat closePat : Str) : Str → Option (ℕ × Str × ℕ)
  | [] => none
  | c :: rest =>
    if leadsWith openPat (c :: rest) then
      match findSub closePat ((c :: rest).drop openPat.length) with
      | some k =>
        some (0, ((c :: rest).drop openPat.length).take k, openPat.length + k + closePat.length)
      | none => (firstViable openPat closePat rest).map (fun t => (t.1 + 1, t.2.1, t.2.2))
    else (firstViable openPat closePat rest).map (fun t => (t.1 + 1, t.2.1, t.2.2))

/-- The opening fence of a tagged block. -/
def openFence (tag : Str) : Str := strL "```" ++ tag ++ strL "\n"

/-- The closing fence shared by all tagged blocks. -/
def closeFence : Str := strL "\n```"

/-- The capture group of the first match of a fenced-block regex
(`match[1]` in App.tsx lines 295-296). -/
def fencedMatch (tag : Str) (s : Str) : Option Str :=
  (firstViable (openFence tag) closeFence s).map (fun t => t.2.1)

/-- `s.replace(regex, '')` for the fenced-block regexes: removes the first
match when there is one. -/
def fencedReplace (tag : Str) (s : Str) : Str :=
  match firstViable (openFence tag) closeFence s with
  | some (i, _, len) => s.take i ++ s.drop (i + len)
  | none => s

/-- A full fenced dataset/chart block as it appears in response text. -/
def fencedBlock (tag : Str) (body : Str) : Str := openFence tag ++ body ++ closeFence

/-- The outcome of the structured-payload extraction in `handleSend`
(App.tsx lines 292-319): the residual response text, the chart payload (if a
json block parsed), and the dataset replacement (new raw text plus its
recomputed column profiles) if a csv block was present. -/
structure ExtractOutcome (α : Type) where
  responseText : Str
  chart : Option α
  dataset : Option (Str × List ColumnInfo)
deriving DecidableEq

/-- The payload-extraction logic of `handleSend` (App.tsx lines 292-319),
parameterised by the external `JSON.parse`-and-shape step `pj` (`none`
models a parse exception).  Mirrors the source: both regexes are matched
against the original response; a csv block (with truthy, i.e. nonempty,
group) unconditionally replaces the dataset with the trimmed block body and
re-profiles it, and removes the block from the text; a json block (nonempty
group) sets the chart and removes the block only when parsing succeeds. -/
def extractPayloads {α : Type} (pj : Str → Option α) (aiResponse : Str) : ExtractOutcome α :=
  let csvM := fencedMatch (strL "csv") aiResponse
  let jsonM := fencedMatch (strL "json") aiResponse
  let step1 : Str × Option (Str × List ColumnInfo) :=
    match csvM with
    | some body =>
      if body.isEmpty then (aiResponse, none)
      else
        let newCsvData := trimLC body
        (trimLC (fencedReplace (strL "csv") aiResponse),
         some (newCsvData, analyzeColumns newCsvData))
    | none => (aiResponse, none)
  let step2 : Str × Option α :=
    match jsonM with
    | some body =>
      if body.isEmpty then (step1.1, none)
      else
        match pj body with
        | some chart => (trimLC (fencedReplace (strL "json") step1.1), some chart)
        | none => (step1.1, none)
    | none => (step1.1, none)
  { responseText := step2.1, chart := step2.2, dataset := step1.2 }

/-! ### Helper lemmas about the profiling pass -/

/-- Both branches of `mkColumnInfo` store the same missing count. -/
theorem mkColumnInfo_missingCount (rows : List (List Str)) (i : ℕ) (h : Str) :
    (mkColumnInfo rows i h).missingCount
      = (columnValuesOf rows i).length - (nonMissingOf rows i).length := by
  unfold mkColumnInfo
  dsimp only
  split <;> rfl

/-- Both branches of `mkColumnInfo` store the row count as `totalRows`. -/
theorem mkColumnInfo_totalRows (rows : List (List Str)) (i : ℕ) (h : Str) :
    (mkColumnInfo rows i h).totalRows = rows.length := by
  unfold mkColumnInfo
  dsimp only
  split <;> rfl

/-- Both branches of `mkColumnInfo` attach a `stats` payload. -/
theorem mkColumnInfo_stats_ne_none (rows : List (List Str)) (i : ℕ) (h : Str) :
    (mkColumnInfo rows i h).stats ≠ none := by
  unfold mkColumnInfo
  dsimp only
  split <;> simp

/-- A column never has more non-missing cells than cells. -/
theorem nonMissingOf_length_le (rows : List (List Str)) (i : ℕ) :
    (nonMissingOf rows i).length ≤ (columnValuesOf rows i).length :=
  List.length_filter_le _ _

/-- Every profile produced by `analyzeColumns` is `mkColumnInfo` at the
matching header. -/
theorem analyzeColumns_get?_eq {csvText : Str} {i : ℕ} {ci : ColumnInfo}
    (h : (analyzeColumns csvText).get? i = some ci) :
    ∃ header, (headersOf csvText).get? i = some header
      ∧ ci = mkColumnInfo (rowsOf csvText) i header := by
  unfold analyzeColumns at h
  split at h
  · simp at h
  · unfold analyzeParsed at h
    rw [List.get?_map, List.get?_enum] at h
    cases hh : (headersOf csvText).get? i with
    | none => rw [hh] at h; simp at h
    | some hd =>
      rw [hh] at h
      simp only [Option.map_some', Option.some.injEq] at h
      exact ⟨hd, rfl, h.symm⟩

/-- When every row reaches column `i`, the column has one cell per row. -/
theorem columnValuesOf_length_of_forall_lt {rows : List (List Str)} {i : ℕ}
    (hall : ∀ row ∈ rows, i < row.length) :
    (columnValuesOf rows i).length = rows.length := by
  induction rows with
  | nil => rfl
  | cons r rest ih =>
    have hr : i < r.length := hall r (List.mem_cons_self r rest)
    have hget : r.get? i = some (r.get ⟨i, hr⟩) := List.get?_eq_get hr
    have htail : ∀ row ∈ rest, i < row.length := fun row hm => hall row (List.mem_cons_of_mem _ hm)
    have hsplit : columnValuesOf (r :: rest) i = r.get ⟨i, hr⟩ :: columnValuesOf rest i := by
      unfold columnValuesOf
      rw [List.filterMap_cons, hget]
    rw [hsplit, List.length_cons, ih htail, List.length_cons]

/-- C3 (corrected): for every profiled column, `missingCount` plus the number
of non-missing (classified) cells equals the number of rows that actually
have a cell in that column; this equals `totalRows` whenever no data row
stops short of the column, but not in general. -/
theorem C3_missing_count_amended (csvText : Str) (i : ℕ) (ci : ColumnInfo)
    (h : (analyzeColumns csvText).get? i = some ci) :
    ci.missingCount + (nonMissingOf (rowsOf csvText) i).length
        = (columnValuesOf (rowsOf csvText) i).length ∧
      ((∀ row ∈ rowsOf csvText, i < row.length) →
        ci.missingCount + (nonMissingOf (rowsOf csvText) i).length = ci.totalRows) := by
  obtain ⟨header, hh, rfl⟩ := analyzeColumns_get?_eq h
  rw [mkColumnInfo_missingCount, mkColumnInfo_totalRows]
  constructor
  · exact Nat.sub_add_cancel (nonMissingOf_length_le _ _)
  · intro hall
    rw [Nat.sub_add_cancel (nonMissingOf_length_le _ _),
      columnValuesOf_length_of_forall_lt hall]

/-- Witness for C3 (corrected): on `a,b\n1,2\n,3` column 0 has one missing
cell, one classified cell, and two rows; the invariant holds because no row
is short. -/
theorem C3_missing_count_amended_witness :
    (analyzeColumns (strL "a,b\n1,2\n,3")).get? 0
        = some { name := strL "a", type := "Numeric", hasMissingValues := true,
                 missingCount := 1, totalRows := 2,
                 stats := some (.numeric { mean := 1, median := 1, stdDev := 0,
                                           min := 1, max := 1 }) } ∧
      ({ name := strL "a", type := "Numeric", hasMissingValues := true,
         missingCount := 1, totalRows := 2,
         stats := some (.numeric { mean := 1, median := 1, stdDev := 0,
                                   min := 1, max := 1 }) } : ColumnInfo).missingCount
          + (nonMissingOf (rowsOf (strL "a,b\n1,2\n,3")) 0).length
        = (columnValuesOf (rowsOf (strL "a,b\n1,2\n,3")) 0).length :=
  ⟨by with_unfolding_all decide,
   (C3_missing_count_amended (strL "a,b\n1,2\n,3") 0 _ (by with_unfolding_all decide)).1⟩

/-- Counterexample to C3 as stated: in `a,b\n1` the single data row is
shorter than the header, so for column `b` (index 1) the code counts zero
cells, zero missing and zero classified values while `totalRows` is 1 — the
claimed invariant `missingCount + classified = totalRows` fails. -/
theorem C3_missing_count_counterexample :
    (analyzeColumns (strL "a,b\n1")).get? 1
        = some { name := strL "b", type := "String", hasMissingValues := false,
                 missingCount := 0, totalRows := 1,
                 stats := some (.categorical { valueCounts := [], uniqueValues := 0 }) } ∧
      (nonMissingOf (rowsOf (strL "a,b\n1")) 1).length = 0 ∧
      ¬ (0 + (nonMissingOf (rowsOf (strL "a,b\n1")) 1).length = 1) := by
  refine ⟨by with_unfolding_all decide, by with_unfolding_all decide,
    by with_unfolding_all decide⟩

/-- C4 (corrected): `analyzeColumns` always attaches a stats payload; a
column with no non-missing value resolves to type `String` (not `Empty`)
with a categorical payload over the empty value list. -/
theorem C4_stats_presence_amended (csvText : Str) (i : ℕ) (ci : ColumnInfo)
    (h : (analyzeColumns csvText).get? i = some ci) :
    ci.stats ≠ none ∧
      (nonMissingOf (rowsOf csvText) i = [] →
        ci.type = "String"
          ∧ ci.stats = some (.categorical { valueCounts := [], uniqueValues := 0 })) := by
  obtain ⟨header, hh, rfl⟩ := analyzeColumns_get?_eq h
  refine ⟨mkColumnInfo_stats_ne_none _ _ _, fun hemp => ?_⟩
  rw [mkColumnInfo, hemp]
  simp [getCategoricalStats]

/-- Witness for C4 (corrected), on `a,b\n1,` whose column `b` is entirely
missing. -/
theorem C4_stats_presence_amended_witness :
    (analyzeColumns (strL "a,b\n1,")).get? 1
        = some { name := strL "b", type := "String", hasMissingValues := true,
                 missingCount := 1, totalRows := 1,
                 stats := some (.categorical { valueCounts := [], uniqueValues := 0 }) } ∧
      nonMissingOf (rowsOf (strL "a,b\n1,")) 1 = [] ∧
      ({ name := strL "b", type := "String", hasMissingValues := true,
         missingCount := 1, totalRows := 1,
         stats := some (.categorical { valueCounts := [], uniqueValues := 0 }) }
          : ColumnInfo).stats ≠ none :=
  ⟨by with_unfolding_all decide, by with_unfolding_all decide,
   (C4_stats_presence_amended (strL "a,b\n1,") 1 _ (by with_unfolding_all decide)).1⟩

/-- Counterexample to C4 as stated: in `a,b\n1,` every cell of column `b` is
missing, yet the resolved type is `String` (never `Empty` in this code) and
a stats payload is present (a categorical payload with zero uniques), not
absent. -/
theorem C4_stats_presence_counterexample :
    (analyzeColumns (strL "a,b\n1,")).get? 1
        = some { name := strL "b", type := "String", hasMissingValues := true,
                 missingCount := 1, totalRows := 1,
                 stats := some (.categorical { valueCounts := [], uniqueValues := 0 }) } ∧
      nonMissingOf (rowsOf (strL "a,b\n1,")) 1 = [] ∧
      ("String" ≠ "Empty") ∧
      (some (StatsPayload.categorical { valueCounts := [], uniqueValues := 0 })
        ≠ (none : Option StatsPayload)) := by
  refine ⟨by with_unfolding_all decide, by with_unfolding_all decide, by decide, by simp⟩

/-- The spec's per-cell quote handling, modelled from the claim's words: trim
surrounding whitespace, then strip exactly one leading and one trailing
double quote when both are present, leaving the interior unchanged. -/
def stripOuterQuotes (v : Str) : Str :=
  let t := trimLC v
  if 2 ≤ t.length && (t.headD ' ' == '"') && (t.getLastD ' ' == '"') then
    (t.drop 1).dropLast
  else t

/-- Counterexample to C5 as stated: on the cell `a"b` the code's global
`replace(/"/g, '')` deletes the internal quote, whereas the claimed
one-layer stripping leaves it in place. -/
theorem C5_quote_stripping_counterexample :
    parseCell (strL "a\"b") = strL "ab" ∧
      stripOuterQuotes (strL "a\"b") = strL "a\"b" ∧
      parseCell (strL "a\"b") ≠ stripOuterQuotes (strL "a\"b") := by
  refine ⟨by decide, by decide, by decide⟩

/-- C5 (corrected): each header/cell is trimmed and then every double-quote
character is removed (global replace): the result is a subsequence of the
trimmed cell, contains no double quote, and keeps every other character with
its multiplicity (hence order and interior content are otherwise
untouched). -/
theorem C5_quote_stripping_amended (v : Str) :
    (parseCell v).Sublist (trimLC v) ∧ '"' ∉ parseCell v ∧
      ∀ c : Char, c ≠ '"' → (parseCell v).count c = (trimLC v).count c := by
  refine ⟨List.filter_sublist _, ?_, ?_⟩
  · intro hmem
    have := List.of_mem_filter hmem
    simp at this
  · intro c hc
    unfold parseCell
    rw [List.count_filter]
    simp [hc]

/-- C10 (confirmed): cells beyond the header width are invisible to the
profiling pass — truncating every row to the header length leaves every
produced `ColumnInfo` unchanged. -/
theorem C10_extra_cells_frame (headers : List Str) (rows : List (List Str)) :
    analyzeParsed headers (rows.map (fun row => row.take headers.length))
      = analyzeParsed headers rows := by
  unfold analyzeParsed
  refine List.map_congr_left (fun p hp => ?_)
  obtain ⟨hlt, -⟩ := List.mem_enum hp
  have hcv : columnValuesOf (rows.map (fun row => row.take headers.length)) p.1
      = columnValuesOf rows p.1 := by
    unfold columnValuesOf
    rw [List.filterMap_map]
    refine List.filterMap_congr (fun row _ => ?_)
    exact List.get?_take hlt
  have hlen : (rows.map (fun row => row.take headers.length)).length = rows.length :=
    List.length_map _ _
  unfold mkColumnInfo nonMissingOf
  rw [hcv, hlen]

/-! ### The column-type reduction (earlier variant, src/unnamed/part_007) -/

/-- No list of four or more distinct `CellType`s exists (there are only
three cell classifications). -/
theorem cellType_nodup_length_le_three {types : List CellType} (hnd : types.Nodup) :
    types.length ≤ 3 := by
  have := List.Nodup.length_le_card hnd
  simpa using this

/-- C8 (confirmed): the column-level reduction over the distinct cell
classifications present resolves the empty set to `Empty`, a singleton to
that type's label, any set containing `String` together with others to
`String (Mixed)`, exactly `{Numeric, Boolean}` to `Numeric`, and any other
multi-type combination to `String (Mixed)` — the last clause vacuously, as
no other multi-type combination over {Numeric, Boolean, String} exists (the
code's `'Mixed'` fallback is unreachable). -/
theorem C8_type_reduction (types : List CellType) (hnd : types.Nodup) :
    (types = [] → resolveColumnType types = "Empty") ∧
      (∀ t : CellType, types = [t] → resolveColumnType types = t.label) ∧
      (CellType.string ∈ types → 2 ≤ types.length →
        resolveColumnType types = "String (Mixed)") ∧
      (CellType.numeric ∈ types → CellType.boolean ∈ types → CellType.string ∉ types →
        resolveColumnType types = "Numeric") ∧
      (2 ≤ types.length → CellType.string ∉ types →
        ¬(CellType.numeric ∈ types ∧ CellType.boolean ∈ types) →
        resolveColumnType types = "String (Mixed)") := by
  match types with
  | [] => exact ⟨by decide, by decide, by decide, by decide, by decide⟩
  | [a] =>
    cases a <;> exact ⟨by decide, by decide, by decide, by decide, by decide⟩
  | [a, b] =>
    cases a <;> cases b <;>
      first
        | exact absurd hnd (by decide)
        | exact ⟨by decide, by decide, by decide, by decide, by decide⟩
  | [a, b, c] =>
    cases a <;> cases b <;> cases c <;>
      first
        | exact absurd hnd (by decide)
        | exact ⟨by decide, by decide, by decide, by decide, by decide⟩
  | a :: b :: c :: d :: rest =>
    exfalso
    have := cellType_nodup_length_le_three hnd
    simp at this

/-- Witness for C8 at the concrete classification set `{Numeric, Boolean}`. -/
theorem C8_type_reduction_witness :
    ([CellType.numeric, CellType.boolean].Nodup) ∧
      (CellType.numeric ∈ [CellType.numeric, CellType.boolean] →
        CellType.boolean ∈ [CellType.numeric, CellType.boolean] →
        CellType.string ∉ [CellType.numeric, CellType.boolean] →
        resolveColumnType [CellType.numeric, CellType.boolean] = "Numeric") :=
  ⟨by decide, (C8_type_reduction [CellType.numeric, CellType.boolean] (by decide)).2.2.2.1⟩

/-! ### The integrity validator -/

/-- Every issue contributed by the row at index `k` carries row number
`k + 2`. -/
theorem rowIssues_row_eq (headers numericCols : List Str) (k : ℕ) (row : List Str) :
    ∀ iss ∈ rowIssues headers numericCols k row, iss.row = k + 2 := by
  intro iss hmem
  unfold rowIssues at hmem
  split at hmem
  · simp at hmem
    rw [hmem]
    rfl
  · obtain ⟨p, -, hp⟩ := List.mem_filterMap.1 hmem
    dsimp only at hp
    split at hp
    · cases hp
      rfl
    · cases hp

/-- Every issue produced from row index `k` onwards carries a row number of
at least `k + 2`. -/
theorem validateFrom_row_ge (headers numericCols : List Str) :
    ∀ (rows : List (List Str)) (k : ℕ),
      ∀ iss ∈ validateFrom headers numericCols k rows, k + 2 ≤ iss.row := by
  intro rows
  induction rows with
  | nil => intro k iss hmem; cases hmem
  | cons r rest ih =>
    intro k iss hmem
    rcases List.mem_append.1 hmem with hmem | hmem
    · exact le_of_eq (rowIssues_row_eq headers numericCols k r iss hmem).symm
    · have := ih (k + 1) iss hmem
      omega

/-- The issues at row number `k + i + 2` produced by `validateFrom` from
index `k` are exactly the single row-length issue, when row `i` has the
wrong width. -/
theorem validateFrom_filter_bad_row (headers numericCols : List Str) :
    ∀ (rows : List (List Str)) (k i : ℕ), i < rows.length →
      (rows.getD i []).length ≠ headers.length →
      (validateFrom headers numericCols k rows).filter (fun iss => iss.row == k + i + 2)
        = [inconsistentRowLengthIssue headers.length (rows.getD i []).length (k + i + 2)] := by
  intro rows
  induction rows with
  | nil => intro k i hi; simp at hi
  | cons r rest ih =>
    intro k i hi hbad
    rw [validateFrom, List.filter_append]
    cases i with
    | zero =>
      have hb : r.length ≠ headers.length := by simpa using hbad
      have hblock : rowIssues headers numericCols k r
          = [inconsistentRowLengthIssue headers.length r.length (k + 2)] := by
        unfold rowIssues
        rw [if_pos hb]
      have htail : (validateFrom headers numericCols (k + 1) rest).filter
          (fun iss => iss.row == k + 0 + 2) = [] := by
        refine List.filter_eq_nil.2 (fun iss hmem => ?_)
        have := validateFrom_row_ge headers numericCols rest (k + 1) iss hmem
        simp only [beq_iff_eq]
        omega
      rw [hblock, htail]
      simp [inconsistentRowLengthIssue]
    | succ i' =>
      have hblock : (rowIssues headers numericCols k r).filter
          (fun iss => iss.row == k + (i' + 1) + 2) = [] := by
        refine List.filter_eq_nil.2 (fun iss hmem => ?_)
        have := rowIssues_row_eq headers numericCols k r iss hmem
        simp only [beq_iff_eq, this]
        omega
      have hi' : i' < rest.length := by simpa using hi
      have hbad' : (rest.getD i' []).length ≠ headers.length := by simpa using hbad
      have := ih (k + 1) i' hi' hbad'
      rw [hblock]
      simp only [List.nil_append]
      have harith : k + 1 + i' + 2 = k + (i' + 1) + 2 := by omega
      rw [harith] at this
      rw [this]
      simp [harith]

/-- C7 (confirmed): a data row whose cell count differs from the header
count contributes exactly one issue carrying its 1-based row number (header
= row 1, first data row = row 2): the `INCONSISTENT_ROW_LENGTH` issue, and
in particular no `MIXED_DATA_TYPE` issue for any of its cells. -/
theorem C7_inconsistent_row (headers : List Str) (rows : List (List Str))
    (columnInfo : List ColumnInfo) (i : ℕ) (hi : i < rows.length)
    (hbad : (rows.getD i []).length ≠ headers.length) :
    (validateCsvData headers rows columnInfo).filter (fun iss => iss.row == i + 2)
      = [inconsistentRowLengthIssue headers.length (rows.getD i []).length (i + 2)] := by
  unfold validateCsvData
  have := validateFrom_filter_bad_row headers (numericColumnNames columnInfo) rows 0 i hi hbad
  simpa using this

/-- Witness for C7: header `a,b,c` with the single data row `1,2` yields
exactly the one row-length issue at row 2. -/
theorem C7_inconsistent_row_witness :
    0 < ([[strL "1", strL "2"]] : List (List Str)).length ∧
      (([[strL "1", strL "2"]] : List (List Str)).getD 0 []).length
        ≠ ([strL "a", strL "b", strL "c"] : List Str).length ∧
      (validateCsvData [strL "a", strL "b", strL "c"] [[strL "1", strL "2"]] []).filter
          (fun iss => iss.row == 0 + 2)
        = [inconsistentRowLengthIssue 3 2 2] :=
  ⟨by decide, by decide,
   C7_inconsistent_row [strL "a", strL "b", strL "c"] [[strL "1", strL "2"]] [] 0
     (by decide) (by decide)⟩

/-! ### Numeric statistics: rounding and the square root bridge -/

/-- Dividing a real by a positive natural commutes with the floor:
⌊x / d⌋ = ⌊x⌋ / d (integer division). -/
theorem intFloor_div_nat (x : ℝ) (d : ℕ) (hd : 0 < d) :
    ⌊x / (d : ℝ)⌋ = ⌊x⌋ / (d : ℤ) := by
  have hdR : (0 : ℝ) < (d : ℝ) := by exact_mod_cast hd
  have hdZ : (0 : ℤ) < (d : ℤ) := by exact_mod_cast hd
  have hm1 : ((⌊x⌋ : ℤ) : ℝ) ≤ x := Int.floor_le x
  have hm2 : x < (⌊x⌋ : ℝ) + 1 := Int.lt_floor_add_one x
  have key : (d : ℤ) * (⌊x⌋ / (d : ℤ)) + ⌊x⌋ % (d : ℤ) = ⌊x⌋ := Int.ediv_add_emod _ _
  have hr0 : 0 ≤ ⌊x⌋ % (d : ℤ) := Int.emod_nonneg _ hdZ.ne'
  have hrd : ⌊x⌋ % (d : ℤ) < (d : ℤ) := Int.emod_lt_of_pos _ hdZ
  have h1 : (d : ℤ) * (⌊x⌋ / (d : ℤ)) ≤ ⌊x⌋ := by omega
  have h2 : ⌊x⌋ + 1 ≤ (d : ℤ) * (⌊x⌋ / (d : ℤ)) + (d : ℤ) := by omega
  have h1R : (d : ℝ) * ((⌊x⌋ / (d : ℤ) : ℤ) : ℝ) ≤ ((⌊x⌋ : ℤ) : ℝ) := by exact_mod_cast h1
  have h2R : ((⌊x⌋ : ℤ) : ℝ) + 1 ≤ (d : ℝ) * ((⌊x⌋ / (d : ℤ) : ℤ) : ℝ) + (d : ℝ) := by
    exact_mod_cast h2
  rw [Int.floor_eq_iff]
  constructor
  · rw [le_div_iff hdR]
    nlinarith
  · rw [div_lt_iff hdR]
    nlinarith

/-- The floor of the real square root of a natural number is `Nat.sqrt`. -/
theorem intFloor_sqrt_nat (m : ℕ) : ⌊Real.sqrt (m : ℝ)⌋ = (Nat.sqrt m : ℤ) := by
  rw [Int.floor_eq_iff]
  constructor
  · have h1 : ((Nat.sqrt m : ℝ)) ^ 2 ≤ (m : ℝ) := by exact_mod_cast Nat.sqrt_le' m
    calc ((Nat.sqrt m : ℤ) : ℝ) = Real.sqrt (((Nat.sqrt m : ℝ)) ^ 2) := by
          rw [Real.sqrt_sq (by positivity)]
          norm_num
      _ ≤ Real.sqrt (m : ℝ) := Real.sqrt_le_sqrt h1
  · have h2 : (m : ℝ) < ((Nat.sqrt m : ℝ) + 1) ^ 2 := by
      have := Nat.lt_succ_sqrt m
      have : (m : ℝ) < ((Nat.sqrt m + 1 : ℕ) : ℝ) * ((Nat.sqrt m + 1 : ℕ) : ℝ) := by
        exact_mod_cast this
      push_cast at this
      nlinarith
    calc Real.sqrt (m : ℝ) < Real.sqrt (((Nat.sqrt m : ℝ) + 1) ^ 2) :=
          Real.sqrt_lt_sqrt (by positivity) h2
      _ = (Nat.sqrt m : ℝ) + 1 := Real.sqrt_sq (by positivity)
      _ = ((Nat.sqrt m : ℤ) : ℝ) + 1 := by norm_num

/-- `ratSqrtFloor` computes the floor of the real square root of a
nonnegative rational. -/
theorem ratSqrtFloor_eq (q : ℚ) (hq : 0 ≤ q) :
    ratSqrtFloor q = ⌊Real.sqrt ((q : ℝ))⌋ := by
  have hnum : 0 ≤ q.num := Rat.num_nonneg.2 hq
  have hden : (0 : ℝ) < (q.den : ℝ) := by exact_mod_cast q.den_pos
  have htn : ((q.num.toNat : ℕ) : ℝ) = ((q.num : ℤ) : ℝ) := by
    exact_mod_cast congrArg (fun z : ℤ => (z : ℝ)) (Int.toNat_of_nonneg hnum)
  have hcast : (q : ℝ) = ((q.num.toNat * q.den : ℕ) : ℝ) / ((q.den : ℝ)) ^ 2 := by
    rw [Rat.cast_def]
    push_cast [htn]
    field_simp
    ring
  rw [hcast, Real.sqrt_div (by positivity), Real.sqrt_sq hden.le,
    intFloor_div_nat _ _ q.den_pos, intFloor_sqrt_nat]
  rfl

/-- `round2sqrt` is exactly "round the real square root to 2 decimal
places": for v ≥ 0 its value is ⌊100·√v + 1/2⌋ / 100. -/
theorem round2sqrt_eq_floor_sqrt (q : ℚ) (hq : 0 ≤ q) :
    ((round2sqrt q : ℚ) : ℝ)
      = ((⌊Real.sqrt ((q : ℝ)) * 100 + 1 / 2⌋ : ℤ) : ℝ) / 100 := by
  have h40 : ((40000 * q : ℚ) : ℝ) = 40000 * (q : ℝ) := by push_cast; ring
  have hsq : Real.sqrt (((40000 * q : ℚ)) : ℝ) = 200 * Real.sqrt ((q : ℝ)) := by
    rw [h40, show (40000 : ℝ) = 200 ^ 2 by norm_num,
      Real.sqrt_mul (by positivity), Real.sqrt_sq (by norm_num)]
  have hkey : ⌊Real.sqrt ((q : ℝ)) * 100 + 1 / 2⌋ = (ratSqrtFloor (40000 * q) + 1) / 2 := by
    have hrw : Real.sqrt ((q : ℝ)) * 100 + 1 / 2
        = (Real.sqrt (((40000 * q : ℚ)) : ℝ) + 1) / ((2 : ℕ) : ℝ) := by
      rw [hsq]
      push_cast
      ring
    rw [hrw, intFloor_div_nat _ 2 (by norm_num), Int.floor_add_one,
      ratSqrtFloor_eq (40000 * q) (by positivity)]
    norm_num
  rw [round2sqrt, hkey]
  push_cast
  ring

/-- `sortAsc` permutes its input. -/
theorem sortAsc_perm (data : List ℚ) : (sortAsc data).Perm data :=
  List.mergeSort_perm data _

/-- `sortAsc` sorts ascending. -/
theorem sortAsc_sorted (data : List ℚ) : List.Sorted (· ≤ ·) (sortAsc data) := by
  have h := @List.sorted_mergeSort ℚ (fun a b : ℚ => a ≤ b)
    (fun a b c h1 h2 => by simp at h1 h2 ⊢; exact le_trans h1 h2)
    (fun a b => by simp [le_total]) data
  exact h.imp (fun hab => by simpa using hab)

/-- In a sorted list, the head bounds every element from below. -/
theorem sorted_headD_le {l : List ℚ} (hs : List.Sorted (· ≤ ·) l) :
    ∀ x ∈ l, l.headD 0 ≤ x := by
  intro x hx
  cases l with
  | nil => cases hx
  | cons a t =>
    rcases List.mem_cons.1 hx with rfl | hx
    · exact le_refl _
    · exact (List.sorted_cons.1 hs).1 x hx

/-- In a sorted list, the last element bounds every element from above. -/
theorem sorted_le_getLastD {l : List ℚ} (hs : List.Sorted (· ≤ ·) l) :
    ∀ x ∈ l, x ≤ l.getLastD 0 := by
  induction l with
  | nil => intro x hx; cases hx
  | cons a t ih =>
    intro x hx
    rw [List.getLastD_cons]
    cases t with
    | nil =>
      rcases List.mem_cons.1 hx with rfl | hx
      · rfl
      · cases hx
    | cons b t' =>
      have hst := (List.sorted_cons.1 hs).2
      have hab : a ≤ b := (List.sorted_cons.1 hs).1 b (List.mem_cons_self _ _)
      have hlast : (b :: t').getLastD a = (b :: t').getLastD 0 := by
        rw [List.getLastD_cons, List.getLastD_cons]
      rw [hlast]
      rcases List.mem_cons.1 hx with rfl | hx
      · exact le_trans hab (ih hst b (List.mem_cons_self _ _))
      · exact ih hst x hx

/-- Nonempty lists keep their head as a member. -/
theorem headD_mem {l : List ℚ} (hne : l ≠ []) : l.headD 0 ∈ l := by
  cases l with
  | nil => exact absurd rfl hne
  | cons a t => exact List.mem_cons_self _ _

/-- Nonempty lists keep their last element as a member. -/
theorem getLastD_mem {l : List ℚ} (hne : l ≠ []) : l.getLastD 0 ∈ l := by
  induction l with
  | nil => exact absurd rfl hne
  | cons a t ih =>
    rw [List.getLastD_cons]
    cases t with
    | nil => exact List.mem_cons_self _ _
    | cons b t' =>
      have : (b :: t').getLastD a = (b :: t').getLastD 0 := by
        rw [List.getLastD_cons, List.getLastD_cons]
      rw [this]
      exact List.mem_cons_of_mem _ (ih (by simp))

/-- The arithmetic average, as the spec words it (§4.3). -/
def meanSpec (data : List ℚ) : ℚ := data.sum / (data.length : ℚ)

/-- The median as the spec words it: sort ascending; the single middle
element when the count is odd, the average of the two middle elements when
even. -/
def medianSpec (data : List ℚ) : ℚ :=
  let sorted := sortAsc data
  if sorted.length % 2 = 0 then
    (sorted.getD (sorted.length / 2 - 1) 0 + sorted.getD (sorted.length / 2) 0) / 2
  else sorted.getD (sorted.length / 2) 0

/-- The population variance as the spec words it: the mean of squared
deviations from the mean (divide by N, not N − 1). -/
def varianceSpec (data : List ℚ) : ℚ :=
  ((data.map (fun x => (x - meanSpec data) ^ 2)).sum) / (data.length : ℚ)

set_option maxRecDepth 10000 in
/-- Counterexample to C6 as stated: for the singleton input [1.234] the
stored `min` is the unrounded 1.234 even though rounding the true minimum to
2 decimal places gives 1.23 — `min` (and `max`) are not rounded. -/
theorem C6_numeric_stats_counterexample :
    (getNumericStats [617/500]).min = 617/500 ∧
      jsToFixed2 (617/500) = 123/100 ∧ (617/500 : ℚ) ≠ 123/100 := by
  refine ⟨by with_unfolding_all decide, by with_unfolding_all decide,
    by with_unfolding_all decide⟩

/-- C6 (corrected): for every nonempty input, the stored mean is the rounded
arithmetic average, the stored median is the rounded spec median, the stored
stdDev is the rounded population standard deviation (⌊100·√variance + 1/2⌋ /
100, dividing by N), while `min` and `max` are stored unrounded as the first
and last entries of the ascending sort (a sorted permutation of the data,
hence the true extrema). -/
theorem C6_numeric_stats_amended (data : List ℚ) (hne : data ≠ []) :
    (getNumericStats data).mean = jsToFixed2 (meanSpec data) ∧
      (getNumericStats data).median = jsToFixed2 (medianSpec data) ∧
      (((getNumericStats data).stdDev : ℚ) : ℝ)
        = ((⌊Real.sqrt ((varianceSpec data : ℚ) : ℝ) * 100 + 1 / 2⌋ : ℤ) : ℝ) / 100 ∧
      (getNumericStats data).min = (sortAsc data).headD 0 ∧
      (getNumericStats data).max = (sortAsc data).getLastD 0 ∧
      (getNumericStats data).min ∈ data ∧
      (getNumericStats data).max ∈ data ∧
      (∀ x ∈ data, (getNumericStats data).min ≤ x ∧ x ≤ (getNumericStats data).max) := by
  have hlen : data.length ≠ 0 := fun h => hne (List.length_eq_zero.1 h)
  have hfold : data.foldl (fun acc val => acc + val) 0 = data.sum :=
    (List.sum_eq_foldl).symm
  have hmean : data.foldl (fun acc val => acc + val) 0 / (data.length : ℚ) = meanSpec data := by
    rw [hfold]; rfl
  have hvar : ((data.map (fun x =>
        (x - data.foldl (fun acc val => acc + val) 0 / (data.length : ℚ)) ^ 2)).foldl
        (fun a b => a + b) 0) / (data.length : ℚ) = varianceSpec data := by
    rw [← List.sum_eq_foldl, hmean]; rfl
  have hvar0 : 0 ≤ varianceSpec data := by
    unfold varianceSpec
    apply div_nonneg
    · exact List.sum_nonneg (by
        intro x hx
        obtain ⟨y, -, rfl⟩ := List.mem_map.1 hx
        positivity)
    · positivity
  have hsne : sortAsc data ≠ [] := by
    intro h
    have := (sortAsc_perm data).length_eq
    rw [h] at this
    exact hne (List.length_eq_zero.1 this.symm)
  have hstats : getNumericStats data =
      { mean := jsToFixed2 (meanSpec data)
        median := jsToFixed2 (medianSpec data)
        stdDev := round2sqrt (varianceSpec data)
        min := (sortAsc data).headD 0
        max := (sortAsc data).getLastD 0 } := by
    unfold getNumericStats
    rw [if_neg hlen]
    dsimp only
    rw [hvar, hmean]
    have hhead : (sortAsc data).getD 0 0 = (sortAsc data).headD 0 := by
      cases sortAsc data with
      | nil => rfl
      | cons a t => rfl
    have hlast : (sortAsc data).getD ((sortAsc data).length - 1) 0
        = (sortAsc data).getLastD 0 := by
      rw [List.getLastD_eq_getLast?, List.getD_eq_getElem?_getD,
        List.getLast?_eq_getElem?]
    rw [hhead, hlast]
    rfl
  refine ⟨by rw [hstats], by rw [hstats], ?_, by rw [hstats], by rw [hstats], ?_, ?_, ?_⟩
  · rw [hstats]
    exact round2sqrt_eq_floor_sqrt _ hvar0
  · rw [hstats]
    exact (sortAsc_perm data).mem_iff.1 (headD_mem hsne)
  · rw [hstats]
    exact (sortAsc_perm data).mem_iff.1 (getLastD_mem hsne)
  · intro x hx
    have hx' : x ∈ sortAsc data := (sortAsc_perm data).mem_iff.2 hx
    rw [hstats]
    exact ⟨sorted_headD_le (sortAsc_sorted data) x hx',
      sorted_le_getLastD (sortAsc_sorted data) x hx'⟩

/-- Witness for C6 (corrected) at the input [5]: all statistics are 5, the
standard deviation is 0. -/
theorem C6_numeric_stats_amended_witness :
    ([ (5 : ℚ) ] ≠ []) ∧
      ((getNumericStats [(5 : ℚ)]).mean = jsToFixed2 (meanSpec [(5 : ℚ)]) ∧
        (getNumericStats [(5 : ℚ)]).median = jsToFixed2 (medianSpec [(5 : ℚ)]) ∧
        (((getNumericStats [(5 : ℚ)]).stdDev : ℚ) : ℝ)
          = ((⌊Real.sqrt ((varianceSpec [(5 : ℚ)] : ℚ) : ℝ) * 100 + 1 / 2⌋ : ℤ) : ℝ) / 100 ∧
        (getNumericStats [(5 : ℚ)]).min = (sortAsc [(5 : ℚ)]).headD 0 ∧
        (getNumericStats [(5 : ℚ)]).max = (sortAsc [(5 : ℚ)]).getLastD 0 ∧
        (getNumericStats [(5 : ℚ)]).min ∈ [(5 : ℚ)] ∧
        (getNumericStats [(5 : ℚ)]).max ∈ [(5 : ℚ)] ∧
        (∀ x ∈ [(5 : ℚ)], (getNumericStats [(5 : ℚ)]).min ≤ x
          ∧ x ≤ (getNumericStats [(5 : ℚ)]).max)) :=
  ⟨by decide, C6_numeric_stats_amended [(5 : ℚ)] (by decide)⟩

/-! ### Scanning lemmas for the fenced-block regexes -/

/-- Unfolding `leadsWith` one character at a time. -/
theorem leadsWith_cons_cons (p c : Char) (ps cs : Str) :
    leadsWith (p :: ps) (c :: cs) = ((p == c) && leadsWith ps cs) := rfl

/-- A pattern is a prefix of itself followed by anything. -/
theorem leadsWith_append_self (p t : Str) : leadsWith p (p ++ t) = true := by
  induction p with
  | nil => cases t <;> rfl
  | cons a p' ih => simp [leadsWith_cons_cons, ih]

/-- `leadsWith` characterises the prefix decomposition. -/
theorem leadsWith_iff_exists (p s : Str) :
    leadsWith p s = true ↔ ∃ t, s = p ++ t := by
  constructor
  · intro h
    induction p generalizing s with
    | nil => exact ⟨s, rfl⟩
    | cons a p' ih =>
      cases s with
      | nil => cases h
      | cons c cs =>
        rw [leadsWith_cons_cons, Bool.and_eq_true, beq_iff_eq] at h
        obtain ⟨t, rfl⟩ := ih cs h.2
        exact ⟨t, by rw [h.1]; rfl⟩
  · rintro ⟨t, rfl⟩
    exact leadsWith_append_self p t
/-- `findSub` on a non-match steps to the tail with a shifted index. -/
theorem findSub_cons_of_not {pat : Str} {c : Char} {s : Str}
    (h : leadsWith pat (c :: s) = false) :
    findSub pat (c :: s) = (findSub pat s).map (· + 1) := by
  rw [findSub, if_neg (by rw [h]; exact Bool.false_ne_true)]

/-- The first occurrence of a pattern at the very front. -/
theorem findSub_self_append (p t : Str) : findSub p (p ++ t) = some 0 := by
  cases p with
  | nil =>
    cases t with
    | nil => rfl
    | cons c cs => rfl
  | cons a p' =>
    have h : leadsWith (a :: p') ((a :: p') ++ t) = true := leadsWith_append_self _ _
    rw [List.cons_append] at h ⊢
    rw [findSub, if_pos h]

/-- Scanning across a region that never contains the pattern's first
character shifts the found index by the region's length. -/
theorem findSub_append_shift (h : Char) (pt X rest : Str) (hX : h ∉ X) :
    findSub (h :: pt) (X ++ rest) = (findSub (h :: pt) rest).map (· + X.length) := by
  induction X with
  | nil =>
    cases hf : findSub (h :: pt) rest <;> simp [hf]
  | cons x X' ih =>
    have hx : h ≠ x := fun he => hX (he ▸ List.mem_cons_self x X')
    have hlw : leadsWith (h :: pt) (x :: (X' ++ rest)) = false := by
      rw [leadsWith_cons_cons, beq_eq_false_iff_ne.2 hx, Bool.false_and]
    rw [List.cons_append, findSub_cons_of_not hlw, ih (fun hm => hX (List.mem_cons_of_mem _ hm))]
    cases hf : findSub (h :: pt) rest <;> simp [hf]
    omega

/-- The characters of the closing fence. -/
theorem closeFence_chars :
    closeFence = '\n' :: backtick :: backtick :: backtick :: [] := by decide

/-- The first occurrence of the closing fence after a backtick-free block
body is exactly at the body's end. -/
theorem findSub_close_block (body tail : Str) (hb : backtick ∉ body) :
    findSub closeFence (body ++ (closeFence ++ tail)) = some body.length := by
  induction body with
  | nil => rw [List.nil_append, findSub_self_append]; rfl
  | cons b body' ih =>
    have hlw : leadsWith closeFence (b :: (body' ++ (closeFence ++ tail))) = false := by
      rcases eq_or_ne b '\n' with rfl | hbn
      · cases hbody' : body' with
        | nil =>
          subst hbody'
          rw [List.nil_append, closeFence_chars]
          simp only [List.cons_append, leadsWith_cons_cons, beq_self_eq_true, Bool.true_and,
            show (backtick == '\n') = false by decide, Bool.false_and, Bool.and_false]
        | cons b' body'' =>
          have hb' : b' ≠ backtick := by
            intro he
            exact hb (he ▸ List.mem_cons_of_mem _ (hbody' ▸ List.mem_cons_self b' body''))
          rw [closeFence_chars]
          simp only [List.cons_append, leadsWith_cons_cons, beq_self_eq_true, Bool.true_and,
            beq_eq_false_iff_ne.2 (Ne.symm hb'), Bool.false_and, Bool.and_false]
      · rw [closeFence_chars]
        simp only [leadsWith_cons_cons, beq_eq_false_iff_ne.2 (Ne.symm hbn), Bool.false_and]
    rw [List.cons_append, findSub_cons_of_not hlw,
      ih (fun hm => hb (List.mem_cons_of_mem _ hm))]
    rfl

/-- When the pattern's first occurrence is viable (a close occurs after it),
`firstViable` returns that occurrence with the lazy group up to the first
close. -/
theorem firstViable_eq (openPat closePat : Str) (hop : openPat ≠ []) :
    ∀ (s : Str) (n : ℕ) (body tail : Str),
      findSub openPat s = some n →
      s.drop n = openPat ++ (body ++ (closePat ++ tail)) →
      findSub closePat (body ++ (closePat ++ tail)) = some body.length →
      firstViable openPat closePat s
        = some (n, body, openPat.length + body.length + closePat.length) := by
  intro s
  induction s with
  | nil =>
    intro n body tail hfind hdecomp hclose
    rw [findSub] at hfind
    rw [if_neg (fun he => hop (List.isEmpty_iff.1 he))] at hfind
    cases hfind
  | cons c s' ih =>
    intro n body tail hfind hdecomp hclose
    by_cases hlw : leadsWith openPat (c :: s') = true
    · rw [findSub, if_pos hlw] at hfind
      obtain rfl : (0 : ℕ) = n := Option.some.inj hfind
      rw [List.drop_zero] at hdecomp
      have hdrop : (c :: s').drop openPat.length = body ++ (closePat ++ tail) := by
        rw [hdecomp, List.drop_left]
      rw [firstViable, if_pos hlw, hdrop, hclose]
      dsimp only
      rw [List.take_left]
    · have hlwf : leadsWith openPat (c :: s') = false := Bool.eq_false_iff.2 hlw
      rw [findSub_cons_of_not hlwf] at hfind
      cases hf : findSub openPat s' with
      | none => rw [hf] at hfind; cases hfind
      | some m =>
        rw [hf] at hfind
        obtain rfl : m + 1 = n := Option.some.inj hfind
        have hdecomp' : s'.drop m = openPat ++ (body ++ (closePat ++ tail)) := by
          rw [← hdecomp, List.drop_succ_cons]
        have hrec := ih m body tail hf hdecomp' hclose
        rw [firstViable, if_neg (by rw [hlwf]; exact Bool.false_ne_true), hrec]
        rfl

/-- Without any occurrence of the opening pattern there is no match. -/
theorem firstViable_none (openPat closePat : Str) :
    ∀ s : Str, findSub openPat s = none → firstViable openPat closePat s = none := by
  intro s
  induction s with
  | nil => intro h; rfl
  | cons c s' ih =>
    intro h
    by_cases hlw : leadsWith openPat (c :: s') = true
    · rw [findSub, if_pos hlw] at h
      cases h
    · have hlwf : leadsWith openPat (c :: s') = false := Bool.eq_false_iff.2 hlw
      rw [findSub_cons_of_not hlwf] at h
      cases hf : findSub openPat s' with
      | none =>
        rw [firstViable, if_neg (by rw [hlwf]; exact Bool.false_ne_true), ih hf]
        rfl
      | some m => rw [hf] at h; cases h

/-- Characterisation of the fenced-block match and replacement when the
opening fence first occurs at position `X.length` and the block body is
backtick-free: the group is the body, and replacement splices the
surrounding text. -/
theorem fenced_extract (tag X body Y : Str) (hop : openFence tag ≠ [])
    (hfind : findSub (openFence tag) (X ++ (fencedBlock tag body ++ Y)) = some X.length)
    (hbody : backtick ∉ body) :
    fencedMatch tag (X ++ (fencedBlock tag body ++ Y)) = some body ∧
      fencedReplace tag (X ++ (fencedBlock tag body ++ Y)) = X ++ Y := by
  have hdecomp : (X ++ (fencedBlock tag body ++ Y)).drop X.length
      = openFence tag ++ (body ++ (closeFence ++ Y)) := by
    rw [List.drop_left, fencedBlock]
    simp [List.append_assoc]
  have hclose := findSub_close_block body Y hbody
  have hfv := firstViable_eq (openFence tag) closeFence hop _ X.length body Y hfind hdecomp hclose
  constructor
  · rw [fencedMatch, hfv]
    rfl
  · rw [fencedReplace, hfv]
    dsimp only
    rw [List.take_left]
    congr 1
    have hassoc : X ++ (fencedBlock tag body ++ Y) = (X ++ fencedBlock tag body) ++ Y :=
      (List.append_assoc _ _ _).symm
    have hlen : X.length + ((openFence tag).length + body.length + closeFence.length)
        = (X ++ fencedBlock tag body).length := by
      rw [List.length_append, fencedBlock, List.length_append, List.length_append]
    rw [hassoc, hlen, List.drop_left]

/-- Without an opening fence the match is empty. -/
theorem fencedMatch_of_no_open (tag s : Str)
    (h : findSub (openFence tag) s = none) : fencedMatch tag s = none := by
  rw [fencedMatch, firstViable_none _ _ s h]
  rfl

/-- One scanning step: a non-matching head shifts the found index. -/
theorem findSub_step (pat : Str) (c : Char) (s R : Str) (m : ℕ)
    (h : leadsWith pat (c :: s) = false)
    (hrec : findSub pat s = (findSub pat R).map (· + m)) :
    findSub pat (c :: s) = (findSub pat R).map (· + (m + 1)) := by
  rw [findSub_cons_of_not h, hrec]
  cases findSub pat R <;> simp
  omega

/-- Base of a scanning chain. -/
theorem findSub_base (pat R : Str) : findSub pat R = (findSub pat R).map (· + 0) := by
  cases findSub pat R <;> simp

/-- Composing an index shift across a backtick-free region with an existing
chain. -/
theorem findSub_shift_chain (p : Str) (X W R : Str) (m : ℕ) (hX : backtick ∉ X)
    (hp : ∃ q, p = backtick :: q)
    (hrec : findSub p W = (findSub p R).map (· + m)) :
    findSub p (X ++ W) = (findSub p R).map (· + (m + X.length)) := by
  obtain ⟨q, rfl⟩ := hp
  rw [findSub_append_shift backtick q X W hX, hrec]
  cases findSub (backtick :: q) R <;> simp
  omega

/-- The characters of the csv opening fence. -/
theorem openFence_csv_chars :
    openFence (strL "csv")
      = backtick :: backtick :: backtick :: 'c' :: 's' :: 'v' :: '\n' :: [] := by decide

/-- The characters of the json opening fence. -/
theorem openFence_json_chars :
    openFence (strL "json")
      = backtick :: backtick :: backtick :: 'j' :: 's' :: 'o' :: 'n' :: '\n' :: [] := by decide

/-- Scanning for the csv opening fence steps across a whole json block (no
csv fence can start inside it), provided no csv fence match can start at the
json block's three closing backticks either. -/
theorem findSub_csv_skip_json (bodyJ R : Str) (hbJ : backtick ∉ bodyJ)
    (hR1 : leadsWith (openFence (strL "csv")) (backtick :: R) = false)
    (hR2 : leadsWith (openFence (strL "csv")) (backtick :: backtick :: R) = false)
    (hR3 : leadsWith (openFence (strL "csv")) (backtick :: backtick :: backtick :: R) = false) :
    findSub (openFence (strL "csv")) (fencedBlock (strL "json") bodyJ ++ R)
      = (findSub (openFence (strL "csv")) R).map (· + (bodyJ.length + 12)) := by
  have e0 := findSub_base (openFence (strL "csv")) R
  have e1 := findSub_step _ backtick R R 0 hR1 e0
  have e2 := findSub_step _ backtick (backtick :: R) R 1 hR2 e1
  have e3 := findSub_step _ backtick (backtick :: backtick :: R) R 2 hR3 e2
  have hnl : leadsWith (openFence (strL "csv"))
      ('\n' :: backtick :: backtick :: backtick :: R) = false := by
    simp only [openFence_csv_chars, leadsWith_cons_cons,
      show (backtick == '\n') = false by decide, Bool.false_and]
  have e4 := findSub_step _ '\n' (backtick :: backtick :: backtick :: R) R 3 hnl e3
  have hclose4 : closeFence ++ R = '\n' :: backtick :: backtick :: backtick :: R := by
    rw [closeFence_chars]
    rfl
  have ebody : findSub (openFence (strL "csv")) (bodyJ ++ (closeFence ++ R))
      = (findSub (openFence (strL "csv")) R).map (· + (4 + bodyJ.length)) := by
    refine findSub_shift_chain _ bodyJ (closeFence ++ R) R 4 hbJ
      ⟨_, openFence_csv_chars⟩ ?_
    rw [hclose4]
    exact e4
  have m0 : leadsWith (openFence (strL "csv"))
      ('\n' :: (bodyJ ++ (closeFence ++ R))) = false := by
    simp only [openFence_csv_chars, leadsWith_cons_cons,
      show (backtick == '\n') = false by decide, Bool.false_and]
  have f7 := findSub_step _ '\n' (bodyJ ++ (closeFence ++ R)) R (4 + bodyJ.length) m0 ebody
  have m1 : leadsWith (openFence (strL "csv"))
      ('n' :: '\n' :: (bodyJ ++ (closeFence ++ R))) = false := by
    simp only [openFence_csv_chars, leadsWith_cons_cons,
      show (backtick == 'n') = false by decide, Bool.false_and]
  have f6 := findSub_step _ 'n' _ R _ m1 f7
  have m2 : leadsWith (openFence (strL "csv"))
      ('o' :: 'n' :: '\n' :: (bodyJ ++ (closeFence ++ R))) = false := by
    simp only [openFence_csv_chars, leadsWith_cons_cons,
      show (backtick == 'o') = false by decide, Bool.false_and]
  have f5 := findSub_step _ 'o' _ R _ m2 f6
  have m3 : leadsWith (openFence (strL "csv"))
      ('s' :: 'o' :: 'n' :: '\n' :: (bodyJ ++ (closeFence ++ R))) = false := by
    simp only [openFence_csv_chars, leadsWith_cons_cons,
      show (backtick == 's') = false by decide, Bool.false_and]
  have f4 := findSub_step _ 's' _ R _ m3 f5
  have m4 : leadsWith (openFence (strL "csv"))
      ('j' :: 's' :: 'o' :: 'n' :: '\n' :: (bodyJ ++ (closeFence ++ R))) = false := by
    simp only [openFence_csv_chars, leadsWith_cons_cons,
      show (backtick == 'j') = false by decide, Bool.false_and]
  have f3 := findSub_step _ 'j' _ R _ m4 f4
  have m5 : leadsWith (openFence (strL "csv"))
      (backtick :: 'j' :: 's' :: 'o' :: 'n' :: '\n' :: (bodyJ ++ (closeFence ++ R)))
      = false := by
    simp only [openFence_csv_chars, leadsWith_cons_cons, beq_self_eq_true, Bool.true_and,
      show (backtick == 'j') = false by decide, Bool.false_and, Bool.and_false]
  have f2 := findSub_step _ backtick _ R _ m5 f3
  have m6 : leadsWith (openFence (strL "csv"))
      (backtick :: backtick :: 'j' :: 's' :: 'o' :: 'n' :: '\n'
        :: (bodyJ ++ (closeFence ++ R))) = false := by
    simp only [openFence_csv_chars, leadsWith_cons_cons, beq_self_eq_true, Bool.true_and,
      show (backtick == 'j') = false by decide, Bool.false_and, Bool.and_false]
  have f1 := findSub_step _ backtick _ R _ m6 f2
  have m7 : leadsWith (openFence (strL "csv"))
      (backtick :: backtick :: backtick :: 'j' :: 's' :: 'o' :: 'n' :: '\n'
        :: (bodyJ ++ (closeFence ++ R))) = false := by
    simp only [openFence_csv_chars, leadsWith_cons_cons, beq_self_eq_true, Bool.true_and,
      show ('c' == 'j') = false by decide, Bool.false_and, Bool.and_false]
  have f0 := findSub_step _ backtick _ R _ m7 f1
  have hshape : fencedBlock (strL "json") bodyJ ++ R
      = backtick :: backtick :: backtick :: 'j' :: 's' :: 'o' :: 'n' :: '\n'
        :: (bodyJ ++ (closeFence ++ R)) := by
    rw [fencedBlock, openFence_json_chars]
    simp [List.append_assoc]
  rw [hshape]
  have harith : 4 + bodyJ.length + 1 + 1 + 1 + 1 + 1 + 1 + 1 + 1 = bodyJ.length + 12 := by omega
  rw [f0, harith]

/-- Scanning for the json opening fence steps across a whole csv block. -/
theorem findSub_json_skip_csv (bodyC R : Str) (hbC : backtick ∉ bodyC)
    (hR1 : leadsWith (openFence (strL "json")) (backtick :: R) = false)
    (hR2 : leadsWith (openFence (strL "json")) (backtick :: backtick :: R) = false)
    (hR3 : leadsWith (openFence (strL "json")) (backtick :: backtick :: backtick :: R) = false) :
    findSub (openFence (strL "json")) (fencedBlock (strL "csv") bodyC ++ R)
      = (findSub (openFence (strL "json")) R).map (· + (bodyC.length + 11)) := by
  have e0 := findSub_base (openFence (strL "json")) R
  have e1 := findSub_step _ backtick R R 0 hR1 e0
  have e2 := findSub_step _ backtick (backtick :: R) R 1 hR2 e1
  have e3 := findSub_step _ backtick (backtick :: backtick :: R) R 2 hR3 e2
  have hnl : leadsWith (openFence (strL "json"))
      ('\n' :: backtick :: backtick :: backtick :: R) = false := by
    simp only [openFence_json_chars, leadsWith_cons_cons,
      show (backtick == '\n') = false by decide, Bool.false_and]
  have e4 := findSub_step _ '\n' (backtick :: backtick :: backtick :: R) R 3 hnl e3
  have hclose4 : closeFence ++ R = '\n' :: backtick :: backtick :: backtick :: R := by
    rw [closeFence_chars]
    rfl
  have ebody : findSub (openFence (strL "json")) (bodyC ++ (closeFence ++ R))
      = (findSub (openFence (strL "json")) R).map (· + (4 + bodyC.length)) := by
    refine findSub_shift_chain _ bodyC (closeFence ++ R) R 4 hbC
      ⟨_, openFence_json_chars⟩ ?_
    rw [hclose4]
    exact e4
  have m0 : leadsWith (openFence (strL "json"))
      ('\n' :: (bodyC ++ (closeFence ++ R))) = false := by
    simp only [openFence_json_chars, leadsWith_cons_cons,
      show (backtick == '\n') = false by decide, Bool.false_and]
  have f6 := findSub_step _ '\n' (bodyC ++ (closeFence ++ R)) R (4 + bodyC.length) m0 ebody
  have m1 : leadsWith (openFence (strL "json"))
      ('v' :: '\n' :: (bodyC ++ (closeFence ++ R))) = false := by
    simp only [openFence_json_chars, leadsWith_cons_cons,
      show (backtick == 'v') = false by decide, Bool.false_and]
  have f5 := findSub_step _ 'v' _ R _ m1 f6
  have m2 : leadsWith (openFence (strL "json"))
      ('s' :: 'v' :: '\n' :: (bodyC ++ (closeFence ++ R))) = false := by
    simp only [openFence_json_chars, leadsWith_cons_cons,
      show (backtick == 's') = false by decide, Bool.false_and]
  have f4 := findSub_step _ 's' _ R _ m2 f5
  have m3 : leadsWith (openFence (strL "json"))
      ('c' :: 's' :: 'v' :: '\n' :: (bodyC ++ (closeFence ++ R))) = false := by
    simp only [openFence_json_chars, leadsWith_cons_cons,
      show (backtick == 'c') = false by decide, Bool.false_and]
  have f3 := findSub_step _ 'c' _ R _ m3 f4
  have m4 : leadsWith (openFence (strL "json"))
      (backtick :: 'c' :: 's' :: 'v' :: '\n' :: (bodyC ++ (closeFence ++ R))) = false := by
    simp only [openFence_json_chars, leadsWith_cons_cons, beq_self_eq_true, Bool.true_and,
      show (backtick == 'c') = false by decide, Bool.false_and, Bool.and_false]
  have f2 := findSub_step _ backtick _ R _ m4 f3
  have m5 : leadsWith (openFence (strL "json"))
      (backtick :: backtick :: 'c' :: 's' :: 'v' :: '\n' :: (bodyC ++ (closeFence ++ R)))
      = false := by
    simp only [openFence_json_chars, leadsWith_cons_cons, beq_self_eq_true, Bool.true_and,
      show (backtick == 'c') = false by decide, Bool.false_and, Bool.and_false]
  have f1 := findSub_step _ backtick _ R _ m5 f2
  have m6 : leadsWith (openFence (strL "json"))
      (backtick :: backtick :: backtick :: 'c' :: 's' :: 'v' :: '\n'
        :: (bodyC ++ (closeFence ++ R))) = false := by
    simp only [openFence_json_chars, leadsWith_cons_cons, beq_self_eq_true, Bool.true_and,
      show ('j' == 'c') = false by decide, Bool.false_and, Bool.and_false]
  have f0 := findSub_step _ backtick _ R _ m6 f1
  have hshape : fencedBlock (strL "csv") bodyC ++ R
      = backtick :: backtick :: backtick :: 'c' :: 's' :: 'v' :: '\n'
        :: (bodyC ++ (closeFence ++ R)) := by
    rw [fencedBlock, openFence_csv_chars]
    simp [List.append_assoc]
  rw [hshape]
  have harith : 4 + bodyC.length + 1 + 1 + 1 + 1 + 1 + 1 + 1 = bodyC.length + 11 := by omega
  rw [f0, harith]

/-! ### Trimming lemmas -/

/-- `dropWhile` passes over a prefix and stops at a block whose head fails
the predicate. -/
theorem dropWhile_append_keep (p : Char → Bool) (X M Y : Str)
    (hM : ∃ c t, M = c :: t ∧ p c = false) :
    List.dropWhile p (X ++ (M ++ Y)) = List.dropWhile p X ++ (M ++ Y) := by
  obtain ⟨c, t, rfl, hc⟩ := hM
  induction X with
  | nil => simp [List.dropWhile_cons, hc]
  | cons x X' ih =>
    rw [List.cons_append]
    cases hx : p x
    · simp [List.dropWhile_cons, hx]
    · simpa [List.dropWhile_cons, hx] using ih

/-- `dropWhile` is stable under re-application to a prefix. -/
theorem dropWhile_dropWhile_append (p : Char → Bool) (X Z : Str) :
    List.dropWhile p (List.dropWhile p X ++ Z) = List.dropWhile p (X ++ Z) := by
  induction X with
  | nil => rfl
  | cons x X' ih =>
    cases hx : p x
    · simp [List.dropWhile_cons, hx]
    · simpa [List.dropWhile_cons, hx] using ih

/-- Leading-trim passes over a block headed by non-whitespace. -/
theorem trimStart_append_keep (X M Y : Str) (hM : ∃ c t, M = c :: t ∧ wsp c = false) :
    trimStart (X ++ (M ++ Y)) = trimStart X ++ (M ++ Y) :=
  dropWhile_append_keep wsp X M Y hM

/-- Trailing-trim passes over a block ending in non-whitespace. -/
theorem trimEnd_append_keep (X M Y : Str) (hM : ∃ c, M.getLast? = some c ∧ wsp c = false) :
    trimEnd (X ++ (M ++ Y)) = X ++ (M ++ trimEnd Y) := by
  obtain ⟨c, hlast, hc⟩ := hM
  have hrev : ∃ t, M.reverse = c :: t := by
    cases hM : M.reverse with
    | nil =>
      rw [List.reverse_eq_nil_iff] at hM
      rw [hM] at hlast
      cases hlast
    | cons d t =>
      refine ⟨t, ?_⟩
      have : M.getLast? = some d := by
        rw [← List.head?_reverse, hM]
        rfl
      rw [this] at hlast
      exact congrArg (· :: t) (Option.some.inj hlast).symm ▸ rfl
  obtain ⟨t, hMrev⟩ := hrev
  unfold trimEnd
  rw [List.reverse_append, List.reverse_append, List.append_assoc]
  rw [dropWhile_append_keep wsp Y.reverse M.reverse X.reverse ⟨c, t, hMrev, hc⟩]
  simp [List.reverse_append, List.reverse_reverse, List.append_assoc]

/-- Leading-trim is stable under re-application to a prefix. -/
theorem trimStart_trimStart_append (X Z : Str) :
    trimStart (trimStart X ++ Z) = trimStart (X ++ Z) :=
  dropWhile_dropWhile_append wsp X Z

/-- Trailing-trim is stable under re-application to a suffix. -/
theorem trimEnd_append_trimEnd (Z Y : Str) :
    trimEnd (Z ++ trimEnd Y) = trimEnd (Z ++ Y) := by
  unfold trimEnd
  rw [List.reverse_append, List.reverse_reverse, List.reverse_append]
  rw [dropWhile_dropWhile_append]

/-- One-step unfolding of the trailing trim. -/
theorem trimEnd_cons (a : Char) (l : Str) :
    trimEnd (a :: l)
      = if trimEnd l = [] then (if wsp a then [] else [a]) else a :: trimEnd l := by
  unfold trimEnd
  rw [show (a :: l).reverse = l.reverse ++ [a] by simp, List.dropWhile_append]
  by_cases hl : List.dropWhile wsp l.reverse = []
  · have hisE : (List.dropWhile wsp l.reverse).isEmpty = true := by rw [hl]; rfl
    have htE : (List.dropWhile wsp l.reverse).reverse = [] := by rw [hl]; rfl
    rw [if_pos hisE, if_pos htE]
    cases ha : wsp a
    · rw [if_neg Bool.false_ne_true]
      simp [List.dropWhile_cons, ha]
    · rw [if_pos rfl]
      simp [List.dropWhile_cons, ha]
  · have hisE : (List.dropWhile wsp l.reverse).isEmpty = false := by
      cases hd : List.dropWhile wsp l.reverse
      · exact absurd hd hl
      · rfl
    have htE : (List.dropWhile wsp l.reverse).reverse ≠ [] := by
      intro he
      exact hl (by simpa using congrArg List.reverse he)
    rw [if_neg (by rw [hisE]; exact Bool.false_ne_true), if_neg htE, List.reverse_append]
    rfl

/-- The leading trim erases exactly the all-whitespace strings. -/
theorem trimStart_eq_nil_iff (P : Str) :
    trimStart P = [] ↔ ∀ c ∈ P, wsp c = true := by
  unfold trimStart
  exact List.dropWhile_eq_nil_iff

/-- The trailing trim erases exactly the all-whitespace strings. -/
theorem trimEnd_eq_nil_iff (P : Str) :
    trimEnd P = [] ↔ ∀ c ∈ P, wsp c = true := by
  unfold trimEnd
  rw [List.reverse_eq_nil_iff, List.dropWhile_eq_nil_iff]
  constructor
  · intro h c hc
    exact h c (List.mem_reverse.2 hc)
  · intro h c hc
    exact h c (List.mem_reverse.1 hc)

/-- Leading and trailing trim commute. -/
theorem trimStart_trimEnd_comm (Z : Str) :
    trimStart (trimEnd Z) = trimEnd (trimStart Z) := by
  induction Z with
  | nil => rfl
  | cons a t ih =>
    rw [trimEnd_cons]
    by_cases ht : trimEnd t = []
    · rw [if_pos ht]
      have htws : ∀ c ∈ t, wsp c = true := (trimEnd_eq_nil_iff t).1 ht
      cases ha : wsp a
      · have h1 : trimStart (a :: t) = a :: t := by
          simp [trimStart, List.dropWhile_cons, ha]
        rw [if_neg Bool.false_ne_true, h1, trimEnd_cons, if_pos ht,
          if_neg (show ¬(wsp a = true) by rw [ha]; exact Bool.false_ne_true)]
        simp [trimStart, List.dropWhile_cons, ha]
      · rw [if_pos rfl]
        have h1 : trimStart (a :: t) = trimStart t := by
          simp [trimStart, List.dropWhile_cons, ha]
        have h2 : trimStart t = [] := by
          rw [trimStart_eq_nil_iff]
          exact htws
        rw [h1, h2]
        rfl
    · rw [if_neg ht]
      cases ha : wsp a
      · have h1 : trimStart (a :: t) = a :: t := by
          simp [trimStart, List.dropWhile_cons, ha]
        have h2 : trimStart (a :: trimEnd t) = a :: trimEnd t := by
          simp [trimStart, List.dropWhile_cons, ha]
        rw [h1, h2, trimEnd_cons, if_neg ht]
      · have h1 : trimStart (a :: t) = trimStart t := by
          simp [trimStart, List.dropWhile_cons, ha]
        have h2 : trimStart (a :: trimEnd t) = trimStart (trimEnd t) := by
          simp [trimStart, List.dropWhile_cons, ha]
        rw [h1, h2, ih]

/-- The trailing trim is idempotent. -/
theorem trimEnd_idem (Z : Str) : trimEnd (trimEnd Z) = trimEnd Z := by
  unfold trimEnd
  rw [List.reverse_reverse, List.dropWhile_idempotent]

/-- When a prefix survives trimming, trimming a longer string keeps the
suffix intact. -/
theorem trimStart_append_of_ne_nil {P : Str} (R : Str) (h : trimStart P ≠ []) :
    trimStart (P ++ R) = trimStart P ++ R := by
  induction P with
  | nil => exact absurd rfl h
  | cons x P' ih =>
    unfold trimStart at h ⊢
    rw [List.cons_append, List.dropWhile_cons, List.dropWhile_cons]
    cases hx : wsp x
    · rfl
    · rw [List.dropWhile_cons, hx] at h
      exact ih h

/-- Trimming past an all-whitespace prefix. -/
theorem trimStart_append_of_nil {P : Str} (R : Str) (h : trimStart P = []) :
    trimStart (P ++ R) = trimStart R := by
  induction P with
  | nil => rfl
  | cons x P' ih =>
    unfold trimStart at h ⊢
    rw [List.cons_append, List.dropWhile_cons]
    rw [List.dropWhile_cons] at h
    cases hx : wsp x
    · rw [hx] at h
      cases h
    · rw [hx] at h
      exact ih h

/-- Splicing out an inner block: trimming the concatenation of a left part
already trimmed on the left and a right part already trimmed on the right
equals trimming the plain concatenation. -/
theorem trimLC_extract (P Q : Str) :
    trimLC (trimStart P ++ trimEnd Q) = trimLC (P ++ Q) := by
  unfold trimLC
  rw [trimStart_trimStart_append]
  by_cases h : trimStart P = []
  · rw [trimStart_append_of_nil _ h, trimStart_append_of_nil _ h,
      trimStart_trimEnd_comm, trimEnd_idem]
  · rw [trimStart_append_of_ne_nil _ h, trimStart_append_of_ne_nil _ h,
      trimEnd_append_trimEnd]

/-- Trimming around a block with non-whitespace first and last characters
splits into the trims of the two sides. -/
theorem trimLC_block (X M Y : Str) (hhead : ∃ c t, M = c :: t ∧ wsp c = false)
    (hlast : ∃ c, M.getLast? = some c ∧ wsp c = false) :
    trimLC (X ++ (M ++ Y)) = trimStart X ++ (M ++ trimEnd Y) := by
  unfold trimLC
  rw [trimStart_append_keep X M Y hhead, trimEnd_append_keep (trimStart X) M Y hlast]

/-- Characters of the leading trim come from the original string. -/
theorem trimStart_subset {c : Char} {s : Str} (h : c ∈ trimStart s) : c ∈ s :=
  (List.dropWhile_sublist wsp).subset h

/-- Characters of the trailing trim come from the original string. -/
theorem trimEnd_subset {c : Char} {s : Str} (h : c ∈ trimEnd s) : c ∈ s := by
  unfold trimEnd at h
  rw [List.mem_reverse] at h
  exact List.mem_reverse.1 ((List.dropWhile_sublist wsp).subset h)

/-- Characters of the trim come from the original string. -/
theorem trimLC_subset {c : Char} {s : Str} (h : c ∈ trimLC s) : c ∈ s :=
  trimStart_subset (trimEnd_subset h)

/-! ### Locating fenced blocks inside response text -/

/-- A fenced block starts with a (non-whitespace) backtick. -/
theorem fencedBlock_head (tag body : Str) (htag : ∃ q, openFence tag = backtick :: q) :
    ∃ c t, fencedBlock tag body = c :: t ∧ wsp c = false := by
  obtain ⟨q, hq⟩ := htag
  exact ⟨backtick, q ++ (body ++ closeFence),
    by rw [fencedBlock, hq]; simp [List.append_assoc], by decide⟩

/-- A fenced block ends with a (non-whitespace) backtick. -/
theorem fencedBlock_last (tag body : Str) :
    ∃ c, (fencedBlock tag body).getLast? = some c ∧ wsp c = false := by
  refine ⟨backtick, ?_, by decide⟩
  rw [fencedBlock, List.append_assoc, List.getLast?_append, List.getLast?_append,
    show closeFence.getLast? = some backtick by decide]
  rfl

/-- The length of a fenced block. -/
theorem fencedBlock_length (tag body : Str) :
    (fencedBlock tag body).length = (openFence tag).length + body.length + 4 := by
  rw [fencedBlock, List.length_append, List.length_append,
    show closeFence.length = 4 by decide]

/-- The opening fence of a block placed after a backtick-free prefix is its
first occurrence. -/
theorem findSub_open_at_block (tag pre body post : Str) (hpre : backtick ∉ pre)
    (htag : ∃ q, openFence tag = backtick :: q) :
    findSub (openFence tag) (pre ++ (fencedBlock tag body ++ post)) = some pre.length := by
  obtain ⟨q, hq⟩ := htag
  have h1 : findSub (openFence tag) (fencedBlock tag body ++ post) = some 0 := by
    rw [show fencedBlock tag body ++ post
        = openFence tag ++ (body ++ (closeFence ++ post)) by
      rw [fencedBlock]; simp [List.append_assoc]]
    exact findSub_self_append _ _
  rw [hq] at h1 ⊢
  rw [findSub_append_shift backtick q pre _ hpre, h1]
  simp

/-- A csv/json opening fence cannot match at the closing backticks of
another block followed by whitespace (or the end of that block's
follower). -/
theorem leadsWith_open_bts_ws (tc c : Char) (u T : Str)
    (hcws : wsp c = true) (htcws : wsp tc = false) :
    leadsWith (backtick :: backtick :: backtick :: tc :: u) (backtick :: c :: T) = false ∧
      leadsWith (backtick :: backtick :: backtick :: tc :: u)
        (backtick :: backtick :: c :: T) = false ∧
      leadsWith (backtick :: backtick :: backtick :: tc :: u)
        (backtick :: backtick :: backtick :: c :: T) = false := by
  have hcbt : (backtick == c) = false := by
    refine beq_eq_false_iff_ne.2 (fun he => ?_)
    rw [← he] at hcws
    exact absurd hcws (by decide)
  have hctc : (tc == c) = false := by
    refine beq_eq_false_iff_ne.2 (fun he => ?_)
    rw [← he] at hcws
    rw [hcws] at htcws
    cases htcws
  refine ⟨?_, ?_, ?_⟩ <;>
    simp only [leadsWith_cons_cons, beq_self_eq_true, Bool.true_and, hcbt, hctc,
      Bool.false_and, Bool.and_false]

/-- A csv/json opening fence cannot match at the closing backticks of a
block that is immediately followed by another fenced block. -/
theorem leadsWith_open_bts_block (tc tc' : Char) (u u' : Str)
    (htc : tc ≠ backtick) :
    leadsWith (backtick :: backtick :: backtick :: tc :: u)
        (backtick :: (backtick :: backtick :: backtick :: tc' :: u')) = false ∧
      leadsWith (backtick :: backtick :: backtick :: tc :: u)
        (backtick :: backtick :: (backtick :: backtick :: backtick :: tc' :: u')) = false ∧
      leadsWith (backtick :: backtick :: backtick :: tc :: u)
        (backtick :: backtick :: backtick
          :: (backtick :: backtick :: backtick :: tc' :: u')) = false := by
  have htcbt : (tc == backtick) = false := beq_eq_false_iff_ne.2 htc
  refine ⟨?_, ?_, ?_⟩ <;>
    simp only [leadsWith_cons_cons, beq_self_eq_true, Bool.true_and, htcbt,
      Bool.false_and, Bool.and_false]

/-! ### Claims about the payload extraction (C1, C2) -/

/-- Nonempty lists are not `isEmpty`. -/
theorem isEmpty_false_of_ne_nil {l : Str} (h : l ≠ []) : l.isEmpty = false := by
  cases l with
  | nil => exact absurd rfl h
  | cons a t => rfl

/-- Counterexample to C1 as stated: in the response `Hi\n___csv block with
body x___\nBye` the block body `x` fails to profile (`analyzeColumns` gives
no columns), yet the extraction still replaces the stored dataset — the new
dataset is the body `x` with an empty profile list, not the unchanged old
one. -/
theorem C1_dataset_replacement_counterexample :
    (extractPayloads (fun _ => (none : Option Unit))
        (strL "Hi\n```csv\nx\n```\nBye")).dataset = some (strL "x", []) ∧
      analyzeColumns (strL "x") = [] ∧
      (some (strL "x", ([] : List ColumnInfo))
        ≠ (none : Option (Str × List ColumnInfo))) ∧
      (extractPayloads (fun _ => (none : Option Unit))
        (strL "Hi\n```csv\nx\n```\nBye")).responseText = strL "Hi\n\nBye" := by
  refine ⟨by with_unfolding_all decide, by with_unfolding_all decide, by simp,
    by with_unfolding_all decide⟩

/-- C1 (corrected): a csv fenced block is applied unconditionally — even
when its body fails to profile, the stored dataset becomes the trimmed block
body with an empty profile list (it is not left unchanged), while the rest
of the response text is still returned with the block removed and trimmed,
and no chart is produced when the text has no json fence. -/
theorem C1_dataset_replacement_amended {α : Type} (pj : Str → Option α)
    (pre body post : Str)
    (hpre : backtick ∉ pre) (hbody : backtick ∉ body) (hne : body ≠ [])
    (hfail : analyzeColumns (trimLC body) = [])
    (hnojson : findSub (openFence (strL "json"))
      (pre ++ (fencedBlock (strL "csv") body ++ post)) = none) :
    extractPayloads pj (pre ++ (fencedBlock (strL "csv") body ++ post)) =
      { responseText := trimLC (pre ++ post), chart := none,
        dataset := some (trimLC body, []) } := by
  have hfind := findSub_open_at_block (strL "csv") pre body post hpre
    ⟨_, openFence_csv_chars⟩
  have hex := fenced_extract (strL "csv") pre body post (by decide) hfind hbody
  have hjson : fencedMatch (strL "json")
      (pre ++ (fencedBlock (strL "csv") body ++ post)) = none :=
    fencedMatch_of_no_open _ _ hnojson
  rw [extractPayloads, hex.1, hjson]
  simp only [isEmpty_false_of_ne_nil hne, Bool.false_eq_true, if_false, hex.2, hfail]

/-- Witness for C1 (corrected) at a concrete response. -/
theorem C1_dataset_replacement_amended_witness :
    (backtick ∉ strL "Hi\n") ∧ (backtick ∉ strL "x") ∧ (strL "x" ≠ []) ∧
      analyzeColumns (trimLC (strL "x")) = [] ∧
      findSub (openFence (strL "json"))
        (strL "Hi\n" ++ (fencedBlock (strL "csv") (strL "x") ++ strL "\nBye")) = none ∧
      extractPayloads (fun _ => (none : Option Unit))
          (strL "Hi\n" ++ (fencedBlock (strL "csv") (strL "x") ++ strL "\nBye")) =
        { responseText := trimLC (strL "Hi\n" ++ strL "\nBye"), chart := none,
          dataset := some (trimLC (strL "x"), []) } :=
  ⟨by decide, by decide, by decide, by with_unfolding_all decide,
   by with_unfolding_all decide,
   C1_dataset_replacement_amended (fun _ => (none : Option Unit)) (strL "Hi\n")
     (strL "x") (strL "\nBye") (by decide) (by decide) (by decide)
     (by with_unfolding_all decide) (by with_unfolding_all decide)⟩

/-- Counterexample to C2 as stated: for a response whose json fenced block
fails to parse, the extraction yields no chart, but the residual text is the
whole original text — the invalid block is NOT removed (the regex
replacement only runs after a successful parse). -/
theorem C2_malformed_chart_counterexample :
    (extractPayloads (fun _ => (none : Option Unit))
        (strL "A\n```json\nnot json!!\n```\nB")).chart = none ∧
      (extractPayloads (fun _ => (none : Option Unit))
          (strL "A\n```json\nnot json!!\n```\nB")).responseText
        = strL "A\n```json\nnot json!!\n```\nB" ∧
      findSub (openFence (strL "json"))
          (extractPayloads (fun _ => (none : Option Unit))
            (strL "A\n```json\nnot json!!\n```\nB")).responseText
        = some 2 := by
  refine ⟨by with_unfolding_all decide, by with_unfolding_all decide,
    by with_unfolding_all decide⟩

/-- C2 (corrected): when the response's json fenced block fails to parse and
no csv block is present, extraction returns no chart, no dataset, and the
residual text is the original text entirely unchanged — the invalid block
remains in place rather than being removed. -/
theorem C2_malformed_chart_amended {α : Type} (pj : Str → Option α)
    (pre body post : Str)
    (hpre : backtick ∉ pre) (hbody : backtick ∉ body) (hne : body ≠ [])
    (hparse : pj body = none)
    (hnocsv : findSub (openFence (strL "csv"))
      (pre ++ (fencedBlock (strL "json") body ++ post)) = none) :
    extractPayloads pj (pre ++ (fencedBlock (strL "json") body ++ post)) =
      { responseText := pre ++ (fencedBlock (strL "json") body ++ post),
        chart := none, dataset := none } := by
  have hfind := findSub_open_at_block (strL "json") pre body post hpre
    ⟨_, openFence_json_chars⟩
  have hex := fenced_extract (strL "json") pre body post (by decide) hfind hbody
  have hcsv : fencedMatch (strL "csv")
      (pre ++ (fencedBlock (strL "json") body ++ post)) = none :=
    fencedMatch_of_no_open _ _ hnocsv
  rw [extractPayloads, hex.1, hcsv]
  simp only [isEmpty_false_of_ne_nil hne, Bool.false_eq_true, if_false, hparse]

/-- Witness for C2 (corrected) at a concrete response. -/
theorem C2_malformed_chart_amended_witness :
    (backtick ∉ strL "A\n") ∧ (backtick ∉ strL "oops") ∧ (strL "oops" ≠ []) ∧
      ((fun _ => (none : Option Unit)) (strL "oops") = none) ∧
      findSub (openFence (strL "csv"))
        (strL "A\n" ++ (fencedBlock (strL "json") (strL "oops") ++ strL "\nB")) = none ∧
      extractPayloads (fun _ => (none : Option Unit))
          (strL "A\n" ++ (fencedBlock (strL "json") (strL "oops") ++ strL "\nB")) =
        { responseText := strL "A\n" ++ (fencedBlock (strL "json") (strL "oops")
            ++ strL "\nB"),
          chart := none, dataset := none } :=
  ⟨by decide, by decide, by decide, rfl, by with_unfolding_all decide,
   C2_malformed_chart_amended (fun _ => (none : Option Unit)) (strL "A\n")
     (strL "oops") (strL "\nB") (by decide) (by decide) (by decide) rfl
     (by with_unfolding_all decide)⟩

/-- A found pattern occurrence puts the pattern's first character in the
string. -/
theorem findSub_head_mem {c : Char} {pt : Str} :
    ∀ {s : Str} {n : ℕ}, findSub (c :: pt) s = some n → c ∈ s := by
  intro s
  induction s with
  | nil => intro n h; cases h
  | cons d s' ih =>
    intro n h
    by_cases hlw : leadsWith (c :: pt) (d :: s') = true
    · have hd : d = c := by
        obtain ⟨t, ht⟩ := (leadsWith_iff_exists _ _).1 hlw
        exact (List.cons.injEq _ _ _ _ ▸ ht).1
      rw [hd]
      exact List.mem_cons_self _ _
    · rw [findSub_cons_of_not (Bool.eq_false_iff.2 hlw)] at h
      cases hf : findSub (c :: pt) s' with
      | none => rw [hf] at h; cases h
      | some m => exact List.mem_cons_of_mem _ (ih hf)

/-- The three closing-backtick positions of a skipped block cannot start a
csv or json opening fence, for a follower that is either empty before
another fenced block, or begins with whitespace. -/
theorem skip_side_conditions (tag tag' : Str) (tc tc' : Char) (u u' : Str)
    (htag : openFence tag = backtick :: backtick :: backtick :: tc :: u)
    (htag' : openFence tag' = backtick :: backtick :: backtick :: tc' :: u')
    (htc : tc ≠ backtick) (htcws : wsp tc = false)
    (B body' C : Str)
    (hBws : B = [] ∨ ∃ c t, B = c :: t ∧ wsp c = true) :
    leadsWith (openFence tag) (backtick :: (B ++ (fencedBlock tag' body' ++ C))) = false ∧
      leadsWith (openFence tag)
        (backtick :: backtick :: (B ++ (fencedBlock tag' body' ++ C))) = false ∧
      leadsWith (openFence tag)
        (backtick :: backtick :: backtick :: (B ++ (fencedBlock tag' body' ++ C)))
          = false := by
  rcases hBws with rfl | ⟨c, t, rfl, hcws⟩
  · have hshape : ([] : Str) ++ (fencedBlock tag' body' ++ C)
        = backtick :: backtick :: backtick :: tc' :: (u' ++ (body' ++ (closeFence ++ C))) := by
      rw [List.nil_append, fencedBlock, htag']
      simp [List.append_assoc]
    rw [hshape, htag]
    exact leadsWith_open_bts_block tc tc' u (u' ++ (body' ++ (closeFence ++ C))) htc
  · have hshape : (c :: t) ++ (fencedBlock tag' body' ++ C)
        = c :: (t ++ (fencedBlock tag' body' ++ C)) := by
      rw [List.cons_append]
    rw [hshape, htag]
    exact leadsWith_open_bts_ws tc c u _ hcws htcws

/-- Full evaluation of the extraction on a response holding a csv block and
then a json block, separated by backtick-free text with the separator
between the blocks empty or starting with whitespace. -/
theorem extract_csv_then_json {α : Type} (pj : Str → Option α) (j : α)
    (A B C bodyC bodyJ : Str)
    (hA : backtick ∉ A) (hB : backtick ∉ B) (hC : backtick ∉ C)
    (hbC : backtick ∉ bodyC) (hbJ : backtick ∉ bodyJ)
    (hneC : bodyC ≠ []) (hneJ : bodyJ ≠ [])
    (hBws : B = [] ∨ ∃ c t, B = c :: t ∧ wsp c = true)
    (hpj : pj bodyJ = some j) :
    extractPayloads pj
        (A ++ (fencedBlock (strL "csv") bodyC
          ++ (B ++ (fencedBlock (strL "json") bodyJ ++ C)))) =
      { responseText := trimLC (A ++ (B ++ C)), chart := some j,
        dataset := some (trimLC bodyC, analyzeColumns (trimLC bodyC)) } := by
  have hfindCsv := findSub_open_at_block (strL "csv") A bodyC
    (B ++ (fencedBlock (strL "json") bodyJ ++ C)) hA ⟨_, openFence_csv_chars⟩
  have hexCsv := fenced_extract (strL "csv") A bodyC
    (B ++ (fencedBlock (strL "json") bodyJ ++ C)) (by decide) hfindCsv hbC
  -- locate the json block in the original response
  have h2 : findSub (openFence (strL "json"))
      (B ++ (fencedBlock (strL "json") bodyJ ++ C)) = some B.length :=
    findSub_open_at_block (strL "json") B bodyJ C hB ⟨_, openFence_json_chars⟩
  have hside := skip_side_conditions (strL "json") (strL "json") 'j' 'j' _ _
    openFence_json_chars openFence_json_chars (by decide) (by decide) B bodyJ C hBws
  have h3 : findSub (openFence (strL "json"))
      (fencedBlock (strL "csv") bodyC ++ (B ++ (fencedBlock (strL "json") bodyJ ++ C)))
        = some (B.length + (bodyC.length + 11)) := by
    rw [findSub_json_skip_csv bodyC _ hbC hside.1 hside.2.1 hside.2.2, h2]
    rfl
  have h4 : findSub (openFence (strL "json"))
      (A ++ (fencedBlock (strL "csv") bodyC
        ++ (B ++ (fencedBlock (strL "json") bodyJ ++ C))))
        = some (B.length + (bodyC.length + 11) + A.length) := by
    rw [openFence_json_chars] at h3 ⊢
    rw [findSub_append_shift backtick _ A _ hA, h3]
    rfl
  have hassoc : A ++ (fencedBlock (strL "csv") bodyC
      ++ (B ++ (fencedBlock (strL "json") bodyJ ++ C)))
      = (A ++ (fencedBlock (strL "csv") bodyC ++ B))
        ++ (fencedBlock (strL "json") bodyJ ++ C) := by
    simp [List.append_assoc]
  have hXlen : (A ++ (fencedBlock (strL "csv") bodyC ++ B)).length
      = B.length + (bodyC.length + 11) + A.length := by
    simp [List.length_append, fencedBlock_length,
      show (openFence (strL "csv")).length = 7 by decide]
    omega
  have hfindJson : findSub (openFence (strL "json"))
      ((A ++ (fencedBlock (strL "csv") bodyC ++ B))
        ++ (fencedBlock (strL "json") bodyJ ++ C))
      = some (A ++ (fencedBlock (strL "csv") bodyC ++ B)).length := by
    rw [← hassoc, h4, hXlen]
  have hexJson := fenced_extract (strL "json")
    (A ++ (fencedBlock (strL "csv") bodyC ++ B)) bodyJ C (by decide) hfindJson hbJ
  have hmatchJson : fencedMatch (strL "json")
      (A ++ (fencedBlock (strL "csv") bodyC
        ++ (B ++ (fencedBlock (strL "json") bodyJ ++ C)))) = some bodyJ := by
    rw [hassoc]
    exact hexJson.1
  -- the text after removing the csv block, trimmed
  have htrim1 : trimLC (A ++ (B ++ (fencedBlock (strL "json") bodyJ ++ C)))
      = trimStart (A ++ B) ++ (fencedBlock (strL "json") bodyJ ++ trimEnd C) := by
    rw [show A ++ (B ++ (fencedBlock (strL "json") bodyJ ++ C))
        = (A ++ B) ++ (fencedBlock (strL "json") bodyJ ++ C) by simp [List.append_assoc]]
    exact trimLC_block (A ++ B) _ C
      (fencedBlock_head _ _ ⟨_, openFence_json_chars⟩) (fencedBlock_last _ _)
  have hpreT : backtick ∉ trimStart (A ++ B) := by
    intro hc
    rcases List.mem_append.1 (trimStart_subset hc) with hc | hc
    · exact hA hc
    · exact hB hc
  have hfindT := findSub_open_at_block (strL "json") (trimStart (A ++ B)) bodyJ
    (trimEnd C) hpreT ⟨_, openFence_json_chars⟩
  have hexT := fenced_extract (strL "json") (trimStart (A ++ B)) bodyJ (trimEnd C)
    (by decide) hfindT hbJ
  -- assemble
  rw [extractPayloads, hexCsv.1, hmatchJson]
  simp only [isEmpty_false_of_ne_nil hneC, isEmpty_false_of_ne_nil hneJ,
    Bool.false_eq_true, if_false, hpj, hexCsv.2, htrim1, hexT.2]
  rw [trimLC_extract (A ++ B) C, List.append_assoc]

/-- Full evaluation of the extraction on a response holding a json block and
then a csv block, separated by backtick-free text with the separator
between the blocks empty or starting with whitespace. -/
theorem extract_json_then_csv {α : Type} (pj : Str → Option α) (j : α)
    (A B C bodyC bodyJ : Str)
    (hA : backtick ∉ A) (hB : backtick ∉ B) (hC : backtick ∉ C)
    (hbC : backtick ∉ bodyC) (hbJ : backtick ∉ bodyJ)
    (hneC : bodyC ≠ []) (hneJ : bodyJ ≠ [])
    (hBws : B = [] ∨ ∃ c t, B = c :: t ∧ wsp c = true)
    (hpj : pj bodyJ = some j) :
    extractPayloads pj
        (A ++ (fencedBlock (strL "json") bodyJ
          ++ (B ++ (fencedBlock (strL "csv") bodyC ++ C)))) =
      { responseText := trimLC (A ++ (B ++ C)), chart := some j,
        dataset := some (trimLC bodyC, analyzeColumns (trimLC bodyC)) } := by
  have hfindJson := findSub_open_at_block (strL "json") A bodyJ
    (B ++ (fencedBlock (strL "csv") bodyC ++ C)) hA ⟨_, openFence_json_chars⟩
  have hexJson := fenced_extract (strL "json") A bodyJ
    (B ++ (fencedBlock (strL "csv") bodyC ++ C)) (by decide) hfindJson hbJ
  -- locate the csv block in the original response
  have h2 : findSub (openFence (strL "csv"))
      (B ++ (fencedBlock (strL "csv") bodyC ++ C)) = some B.length :=
    findSub_open_at_block (strL "csv") B bodyC C hB ⟨_, openFence_csv_chars⟩
  have hside := skip_side_conditions (strL "csv") (strL "csv") 'c' 'c' _ _
    openFence_csv_chars openFence_csv_chars (by decide) (by decide) B bodyC C hBws
  have h3 : findSub (openFence (strL "csv"))
      (fencedBlock (strL "json") bodyJ ++ (B ++ (fencedBlock (strL "csv") bodyC ++ C)))
        = some (B.length + (bodyJ.length + 12)) := by
    rw [findSub_csv_skip_json bodyJ _ hbJ hside.1 hside.2.1 hside.2.2, h2]
    rfl
  have h4 : findSub (openFence (strL "csv"))
      (A ++ (fencedBlock (strL "json") bodyJ
        ++ (B ++ (fencedBlock (strL "csv") bodyC ++ C))))
        = some (B.length + (bodyJ.length + 12) + A.length) := by
    rw [openFence_csv_chars] at h3 ⊢
    rw [findSub_append_shift backtick _ A _ hA, h3]
    rfl
  have hassoc : A ++ (fencedBlock (strL "json") bodyJ
      ++ (B ++ (fencedBlock (strL "csv") bodyC ++ C)))
      = (A ++ (fencedBlock (strL "json") bodyJ ++ B))
        ++ (fencedBlock (strL "csv") bodyC ++ C) := by
    simp [List.append_assoc]
  have hXlen : (A ++ (fencedBlock (strL "json") bodyJ ++ B)).length
      = B.length + (bodyJ.length + 12) + A.length := by
    simp [List.length_append, fencedBlock_length,
      show (openFence (strL "json")).length = 8 by decide]
    omega
  have hfindCsv : findSub (openFence (strL "csv"))
      ((A ++ (fencedBlock (strL "json") bodyJ ++ B))
        ++ (fencedBlock (strL "csv") bodyC ++ C))
      = some (A ++ (fencedBlock (strL "json") bodyJ ++ B)).length := by
    rw [← hassoc, h4, hXlen]
  have hexCsv := fenced_extract (strL "csv")
    (A ++ (fencedBlock (strL "json") bodyJ ++ B)) bodyC C (by decide) hfindCsv hbC
  have hmatchCsv : fencedMatch (strL "csv")
      (A ++ (fencedBlock (strL "json") bodyJ
        ++ (B ++ (fencedBlock (strL "csv") bodyC ++ C)))) = some bodyC := by
    rw [hassoc]
    exact hexCsv.1
  have hreplCsv : fencedReplace (strL "csv")
      (A ++ (fencedBlock (strL "json") bodyJ
        ++ (B ++ (fencedBlock (strL "csv") bodyC ++ C))))
      = A ++ (fencedBlock (strL "json") bodyJ ++ (B ++ C)) := by
    rw [hassoc, hexCsv.2]
    simp [List.append_assoc]
  -- the text after removing the csv block, trimmed
  have htrim1 : trimLC (A ++ (fencedBlock (strL "json") bodyJ ++ (B ++ C)))
      = trimStart A ++ (fencedBlock (strL "json") bodyJ ++ trimEnd (B ++ C)) :=
    trimLC_block A _ (B ++ C)
      (fencedBlock_head _ _ ⟨_, openFence_json_chars⟩) (fencedBlock_last _ _)
  have hpreT : backtick ∉ trimStart A := fun hc => hA (trimStart_subset hc)
  have hfindT := findSub_open_at_block (strL "json") (trimStart A) bodyJ
    (trimEnd (B ++ C)) hpreT ⟨_, openFence_json_chars⟩
  have hexT := fenced_extract (strL "json") (trimStart A) bodyJ (trimEnd (B ++ C))
    (by decide) hfindT hbJ
  -- assemble
  rw [extractPayloads, hmatchCsv, hexJson.1]
  simp only [isEmpty_false_of_ne_nil hneC, isEmpty_false_of_ne_nil hneJ,
    Bool.false_eq_true, if_false, hpj, hreplCsv, htrim1, hexT.2]
  rw [trimLC_extract A (B ++ C)]

/-- C9 (confirmed): for a response containing exactly one csv block and one
json block (surrounding segments backtick-free, the separator between the
blocks empty or starting with whitespace, the json body parsing
successfully), extraction yields the same residual text and the same two
structured artifacts regardless of which block appears first, and the
residual text contains no fence marker. -/
theorem C9_extraction_order_independence {α : Type} (pj : Str → Option α) (j : α)
    (A B C bodyC bodyJ : Str)
    (hA : backtick ∉ A) (hB : backtick ∉ B) (hC : backtick ∉ C)
    (hbC : backtick ∉ bodyC) (hbJ : backtick ∉ bodyJ)
    (hneC : bodyC ≠ []) (hneJ : bodyJ ≠ [])
    (hBws : B = [] ∨ ∃ c t, B = c :: t ∧ wsp c = true)
    (hpj : pj bodyJ = some j) :
    extractPayloads pj
        (A ++ (fencedBlock (strL "csv") bodyC
          ++ (B ++ (fencedBlock (strL "json") bodyJ ++ C))))
      = extractPayloads pj
        (A ++ (fencedBlock (strL "json") bodyJ
          ++ (B ++ (fencedBlock (strL "csv") bodyC ++ C)))) ∧
    (extractPayloads pj
        (A ++ (fencedBlock (strL "csv") bodyC
          ++ (B ++ (fencedBlock (strL "json") bodyJ ++ C))))).responseText
      = trimLC (A ++ (B ++ C)) ∧
    (extractPayloads pj
        (A ++ (fencedBlock (strL "csv") bodyC
          ++ (B ++ (fencedBlock (strL "json") bodyJ ++ C))))).chart = some j ∧
    (extractPayloads pj
        (A ++ (fencedBlock (strL "csv") bodyC
          ++ (B ++ (fencedBlock (strL "json") bodyJ ++ C))))).dataset
      = some (trimLC bodyC, analyzeColumns (trimLC bodyC)) ∧
    findSub (strL "```")
      (extractPayloads pj
        (A ++ (fencedBlock (strL "csv") bodyC
          ++ (B ++ (fencedBlock (strL "json") bodyJ ++ C))))).responseText = none := by
  have e1 := extract_csv_then_json pj j A B C bodyC bodyJ hA hB hC hbC hbJ hneC hneJ hBws hpj
  have e2 := extract_json_then_csv pj j A B C bodyC bodyJ hA hB hC hbC hbJ hneC hneJ hBws hpj
  refine ⟨by rw [e1, e2], by rw [e1], by rw [e1], by rw [e1], ?_⟩
  rw [e1]
  cases h : findSub (strL "```") (trimLC (A ++ (B ++ C))) with
  | none => rfl
  | some n =>
    exfalso
    have hmem : backtick ∈ trimLC (A ++ (B ++ C)) := by
      rw [show strL "```" = backtick :: backtick :: backtick :: [] by decide] at h
      exact findSub_head_mem h
    rcases List.mem_append.1 (trimLC_subset hmem) with hm | hm
    · exact hA hm
    · rcases List.mem_append.1 hm with hm | hm
      · exact hB hm
      · exact hC hm

/-- Witness for C9 at a concrete two-block response. -/
theorem C9_extraction_order_independence_witness :
    ((fun _ => (some 1 : Option ℕ)) (strL "77") = some 1) ∧ (strL "h\n1" ≠ []) ∧
      extractPayloads (fun _ => (some 1 : Option ℕ))
          (strL "Intro\n" ++ (fencedBlock (strL "csv") (strL "h\n1")
            ++ (strL "\nmid\n" ++ (fencedBlock (strL "json") (strL "77")
              ++ strL "\nend"))))
        = extractPayloads (fun _ => (some 1 : Option ℕ))
          (strL "Intro\n" ++ (fencedBlock (strL "json") (strL "77")
            ++ (strL "\nmid\n" ++ (fencedBlock (strL "csv") (strL "h\n1")
              ++ strL "\nend")))) :=
  ⟨rfl, by decide,
   (C9_extraction_order_independence (fun _ => (some 1 : Option ℕ)) 1
     (strL "Intro\n") (strL "\nmid\n") (strL "\nend") (strL "h\n1") (strL "77")
     (by decide) (by decide) (by decide) (by decide) (by decide) (by decide) (by decide)
     (Or.inr ⟨'\n', strL "mid\n", by decide, by decide⟩) rfl).1⟩
